import Mathlib

/-!
# KeePassBot core model

Shallow embedding of the document-tree core of `src/KeePass.py`
(KeePassBot): child-list bookkeeping, pagination cursors, the add/edit
draft state machine, the search overlay, the Title-string name
derivation, and the XML encode/decode pair.  Each definition mirrors
the Python source construct named in its doc comment; theorems settle
the frozen specification claims against these definitions.
-/

namespace KeePassBot

/-! ## Child-list bookkeeping (`KeeGroup.append` / `KeeGroup.delete`,
`KeeEntry.append` / `KeeEntry.delete`) -/

/-- Bookkeeping state of one container node: the Python attributes
`items` (the ordered child list, children identified here by numeric
object ids) and `size`.  `BaseKeePass.__init__` sets `size = 0` and
`KeeGroup.__init__` / `KeeEntry.__init__` set `items = []`. -/
structure ChildState where
  items : List Nat
  size : Nat
deriving DecidableEq, Repr

/-- Fresh container: `items = []`, `size = 0`. -/
def ChildState.init : ChildState := ⟨[], 0⟩

/-- `KeeGroup.append` / `KeeEntry.append` (after the isinstance check
passes): `self.items.append(item); self.size += 1`. -/
def appendChild (g : ChildState) (c : Nat) : ChildState :=
  { items := g.items ++ [c], size := g.size + 1 }

/-- Effect of `child.delete()` on the parent (`KeeGroup.delete` and
`KeeEntry.delete` both run `self._parent.items.remove(self)`, which
drops the first occurrence; neither touches the parent's `size`
attribute). -/
def deleteChild (g : ChildState) (c : Nat) : ChildState :=
  { items := g.items.erase c, size := g.size }

/-! ## Pagination (`BaseKeePass.next_page` / `BaseKeePass.previous_page`) -/

/-- Pagination state of a node: Python attributes `page` (1-based,
initialised to 1) and `size`. -/
structure PageState where
  page : Nat
  size : Nat
deriving DecidableEq, Repr

/-- Page count `int(math.ceil(self.size / NUMBER_OF_ENTRIES_ON_PAGE))`
(Python 3 true division, modelled exactly over `ℚ`).  `pl` stands for
the positive constant `NUMBER_OF_ENTRIES_ON_PAGE` imported from the
`src.settings` module, which is not part of the sources; the spec calls
it `PAGE_LENGTH` and fixes no value, so it stays a parameter. -/
def numPages (pl : Nat) (size : Nat) : Nat :=
  (Int.ceil ((size : ℚ) / (pl : ℚ))).toNat

/-- `BaseKeePass.next_page`:
`if self.page < self.size / NUMBER_OF_ENTRIES_ON_PAGE: self.page += 1
else: self.page = 1`. -/
def nextPage (pl : Nat) (s : PageState) : PageState :=
  if (s.page : ℚ) < (s.size : ℚ) / (pl : ℚ) then { s with page := s.page + 1 }
  else { s with page := 1 }

/-- `BaseKeePass.previous_page`:
`if self.page > 1: self.page -= 1
else: self.page = int(math.ceil(self.size / NUMBER_OF_ENTRIES_ON_PAGE))`. -/
def previousPage (pl : Nat) (s : PageState) : PageState :=
  if s.page > 1 then { s with page := s.page - 1 }
  else { s with page := numPages pl s.size }

/-- The guard of `next_page` is equivalent to `page < numPages` over the
naturals (for a positive page length). -/
theorem nextPage_guard_iff (pl : Nat) (hpl : 0 < pl) (page size : Nat) :
    ((page : ℚ) < (size : ℚ) / (pl : ℚ)) ↔ page < numPages pl size := by
  have hcast : ((page : ℚ) < (size : ℚ) / (pl : ℚ)) ↔
      ((page : ℤ) : ℚ) < (size : ℚ) / (pl : ℚ) := by push_cast; rfl
  rw [hcast, ← Int.lt_ceil]
  unfold numPages
  have hnn : (0 : ℤ) ≤ Int.ceil ((size : ℚ) / (pl : ℚ)) := by
    apply Int.ceil_nonneg
    positivity
  omega

/-- C1: the spec's invariant "`size` equals the live child count after any
sequence of append/delete" fails on the code: `append` increments `size`,
but `delete` removes the child from the parent's `items` without
decrementing `size`.  Evaluating the embedded code at the failing input
(fresh group, append one child, delete it): `size` stays 1 while the
child list is empty. -/
theorem c1_delete_leaves_size_stale :
    (deleteChild (appendChild ChildState.init 1) 1).size = 1 ∧
    (deleteChild (appendChild ChildState.init 1) 1).items.length = 0 := by
  decide

/-- C8 (counterexample): the claim "`next_page` wraps to 1 exactly when
`page = ceil(size/PAGE_LENGTH)` and otherwise increments" is false at the
reachable state `page = 1`, `size = 0` (a freshly created empty group, here
with page length 8): `page` differs from `ceil(0/8) = 0`, yet `next_page`
resets to 1 instead of incrementing to 2. -/
theorem c8_counterexample :
    (1 : Nat) ≠ numPages 8 0 ∧ (nextPage 8 ⟨1, 0⟩).page ≠ 1 + 1 := by
  constructor
  · intro h
    simp only [numPages] at h
    norm_num at h
  · intro h
    simp only [nextPage] at h
    norm_num at h

/-- C8 (amended): for a positive page length, a nonempty node and a page
cursor in range `1 ≤ page ≤ ceil(size/PAGE_LENGTH)`, `next_page` wraps to 1
exactly when `page = ceil(size/PAGE_LENGTH)` and otherwise increments, and
`previous_page` wraps to `ceil(size/PAGE_LENGTH)` exactly when `page = 1`
and otherwise decrements.  (Outside this range — e.g. the empty node of
the counterexample — `next_page` resets to 1 without incrementing.) -/
theorem c8_page_wrap (pl : Nat) (s : PageState) (hpl : 0 < pl)
    (h1 : 1 ≤ s.page) (h2 : s.page ≤ numPages pl s.size) :
    (nextPage pl s).page =
      (if s.page = numPages pl s.size then 1 else s.page + 1) ∧
    (previousPage pl s).page =
      (if s.page = 1 then numPages pl s.size else s.page - 1) := by
  constructor
  · by_cases h : s.page = numPages pl s.size
    · have hng : ¬ ((s.page : ℚ) < (s.size : ℚ) / (pl : ℚ)) := by
        rw [nextPage_guard_iff pl hpl]
        omega
      simp only [nextPage]
      rw [if_neg hng, if_pos h]
    · have hg : ((s.page : ℚ) < (s.size : ℚ) / (pl : ℚ)) := by
        rw [nextPage_guard_iff pl hpl]
        omega
      simp only [nextPage]
      rw [if_pos hg, if_neg h]
  · by_cases h : s.page = 1
    · simp [previousPage, h]
    · have : 1 < s.page := by omega
      simp [previousPage, this, h]

/-- Witness for `c8_page_wrap` at page length 8, `size = 9`, `page = 2`
(so `numPages = 2`): `next_page` wraps to 1 and `previous_page` decrements
to 1. -/
theorem c8_page_wrap_witness :
    (0 < 8 ∧ 1 ≤ (2 : Nat) ∧ 2 ≤ numPages 8 9) ∧
    ((nextPage 8 ⟨2, 9⟩).page = (if 2 = numPages 8 9 then 1 else 2 + 1) ∧
     (previousPage 8 ⟨2, 9⟩).page = (if 2 = 1 then numPages 8 9 else 2 - 1)) := by
  have hc : (Int.ceil ((9 : ℚ) / (8 : ℚ))) = 2 := by
    rw [Int.ceil_eq_iff]
    constructor <;> norm_num
  have hn : numPages 8 9 = 2 := by
    simp only [numPages]
    norm_num [hc]
    rfl
  refine ⟨⟨by norm_num, by norm_num, by rw [hn]⟩, c8_page_wrap 8 ⟨2, 9⟩ (by norm_num) (by norm_num) (by simp [hn])⟩

/-! ## Edit draft state machine (`AddEditState`)

The draft's `fields` attribute is a Python dict `field name → value`;
insertion order is significant, so it is modelled as an association list.
A value is `Option String`: `none` is Python `None` (a field never set). -/

/-- Draft state: the `fields` mapping in insertion order and the
`current_field` cursor. -/
structure AddEditFields where
  fields : List (String × Option String)
  current_field : String
deriving DecidableEq, Repr

/-- Python dict store `fields[k] = v`: overwrite the value of an existing
key, else append the new key at the end (dict insertion order). -/
def setItem (fs : List (String × Option String)) (k : String) (v : Option String) :
    List (String × Option String) :=
  if fs.any (fun p => p.1 = k) then
    fs.map (fun p => if p.1 = k then (p.1, v) else p)
  else fs ++ [(k, v)]

/-- Python dict read `fields[k]` / `fields.get(k)`: first binding of `k`. -/
def getField : List (String × Option String) → String → Option (Option String)
  | [], _ => none
  | (k1, v) :: rest, k => if k1 = k then some v else getField rest k

/-- `AddEditState.set_cur_field_value`: `self.fields[self.current_field] = value`. -/
def setCurFieldValue (st : AddEditFields) (v : Option String) : AddEditFields :=
  { st with fields := setItem st.fields st.current_field v }

/-- `AddEditState.set_cur_field`: `self.current_field = field_name`. -/
def setCurField (st : AddEditFields) (name : String) : AddEditFields :=
  { st with current_field := name }

/-- Initial draft for an Entry in Add mode (`AddEditState.__init__` with
`item_type == ItemType.ENTRY`): fields Title/UserName/Password/URL/Notes,
all unset, cursor on Title. -/
def entryDraftInit : AddEditFields :=
  { fields := [("Title", none), ("UserName", none), ("Password", none),
               ("URL", none), ("Notes", none)],
    current_field := "Title" }

/-- Initial draft for a Group in Add mode (`AddEditState.__init__` with
`item_type == ItemType.GROUP`): fields Name/Notes, unset, cursor on Name. -/
def groupDraftInit : AddEditFields :=
  { fields := [("Name", none), ("Notes", none)],
    current_field := "Name" }

/-- Scan loop of `AddEditState.next_field`: iterate the field names with a
`finded` flag; once the flag is set, the next name becomes the cursor and
the loop breaks; if the flag was set on the last name the loop just ends
and the cursor is left unchanged. -/
def nextFieldGo (cur : String) : List String → Bool → String
  | [], _ => cur
  | f :: rest, finded => if finded then f else nextFieldGo cur rest (cur == f)

/-- `AddEditState.next_field` on the field-name sequence `ks`. -/
def nextField (ks : List String) (cur : String) : String :=
  nextFieldGo cur ks false

/-- Scan loop of `AddEditState.prev_field`: `prev_field` starts at the
first name; when the cursor's name is met, the cursor moves to
`prev_field` and the loop breaks, else `prev_field` trails behind. -/
def prevFieldGo (cur : String) : List String → String → String
  | [], _ => cur
  | f :: rest, prev => if cur == f then prev else prevFieldGo cur rest f

/-- `AddEditState.prev_field` on the field-name sequence `ks`
(`prev_field = list(self.fields.keys())[0]` raises IndexError on an empty
mapping; the draft mappings are never empty, and the model returns the
cursor unchanged in that vacuous case). -/
def prevField (ks : List String) (cur : String) : String :=
  match ks with
  | [] => cur
  | k0 :: _ => prevFieldGo cur ks k0

/-- If the cursor's name occurs nowhere in the scanned suffix, the
`next_field` scan leaves the cursor unchanged. -/
theorem nextFieldGo_not_mem (cur : String) (ks : List String)
    (h : ∀ f ∈ ks, cur ≠ f) : nextFieldGo cur ks false = cur := by
  induction ks with
  | nil => rfl
  | cons f rest ih =>
      have hne : cur ≠ f := h f (List.mem_cons_self f rest)
      have : (cur == f) = false := by
        simp [hne]
      simp only [nextFieldGo, Bool.false_eq_true, if_false, this]
      exact ih fun g hg => h g (List.mem_cons_of_mem f hg)

/-- Characterisation of the `next_field` scan started on the `i`-th name
of a duplicate-free sequence: move to position `i+1` if it exists, else
stay put. -/
theorem nextFieldGo_spec (ks : List String) (i : Nat) (hi : i < ks.length)
    (hnd : ks.Nodup) :
    nextFieldGo (ks.getD i "") ks false =
      ks.getD (min (i + 1) (ks.length - 1)) "" := by
  induction ks generalizing i with
  | nil => simp at hi
  | cons f rest ih =>
      rcases i with _ | j
      · have hcur : (f :: rest).getD 0 "" = f := rfl
        rw [hcur]
        simp only [nextFieldGo, Bool.false_eq_true, if_false, beq_self_eq_true]
        cases rest with
        | nil => simp [nextFieldGo]
        | cons g rs =>
            have hm : min (0 + 1) ((f :: g :: rs).length - 1) = 1 := by
              simp only [List.length_cons]
              omega
            rw [hm]
            simp [nextFieldGo, List.getD]
      · have hmem : (f :: rest).getD (j + 1) "" = rest.getD j "" := by
          simp [List.getD]
        have hj : j < rest.length := by
          simpa using hi
        have hcm : rest.getD j "" ∈ rest := by
          rw [List.getD_eq_getElem rest "" hj]
          exact List.getElem_mem hj
        have hne : rest.getD j "" ≠ f := by
          intro hEq
          have : f ∈ rest := hEq ▸ hcm
          exact (List.nodup_cons.mp hnd).1 this
        have hbeq : ((rest.getD j "") == f) = false :=
          beq_eq_false_iff_ne.mpr hne
        rw [hmem]
        simp only [nextFieldGo, Bool.false_eq_true, if_false, hbeq]
        rw [ih j hj (List.nodup_cons.mp hnd).2]
        have hlen : rest.length ≠ 0 := by
          intro h0
          rw [h0] at hj
          exact Nat.not_lt_zero j hj
        rcases Nat.lt_or_ge (j + 1) rest.length with hlt | hge
        · have h1 : min (j + 1) (rest.length - 1) = j + 1 := by omega
          have h2 : min (j + 1 + 1) ((f :: rest).length - 1) = j + 2 := by
            simp only [List.length_cons]
            omega
          rw [h1, h2]
          simp [List.getD]
        · have h1 : min (j + 1) (rest.length - 1) = rest.length - 1 := by omega
          have h2 : min (j + 1 + 1) ((f :: rest).length - 1) = rest.length := by
            simp only [List.length_cons]
            omega
          rw [h1, h2]
          have h3 : rest.length = j + 1 := by omega
          simp [List.getD, h3]

/-- Characterisation of the `prev_field` scan: starting on the `i`-th name
of a duplicate-free sequence with the trailing name `prev`, the cursor
moves to `prev` when `i = 0` and to position `i-1` otherwise. -/
theorem prevFieldGo_spec (ks : List String) (prev : String) (i : Nat)
    (hi : i < ks.length) (hnd : ks.Nodup) :
    prevFieldGo (ks.getD i "") ks prev =
      (if i = 0 then prev else ks.getD (i - 1) "") := by
  induction ks generalizing i prev with
  | nil => simp at hi
  | cons f rest ih =>
      rcases i with _ | j
      · have hcur : (f :: rest).getD 0 "" = f := rfl
        rw [hcur]
        simp [prevFieldGo]
      · have hmem : (f :: rest).getD (j + 1) "" = rest.getD j "" := by
          simp [List.getD]
        have hj : j < rest.length := by
          simpa using hi
        have hcm : rest.getD j "" ∈ rest := by
          rw [List.getD_eq_getElem rest "" hj]
          exact List.getElem_mem hj
        have hne : rest.getD j "" ≠ f := by
          intro hEq
          have : f ∈ rest := hEq ▸ hcm
          exact (List.nodup_cons.mp hnd).1 this
        have hbeq : ((rest.getD j "") == f) = false :=
          beq_eq_false_iff_ne.mpr hne
        rw [hmem]
        simp only [prevFieldGo, hbeq, Bool.false_eq_true, if_false]
        rw [ih f j hj (List.nodup_cons.mp hnd).2]
        rcases j with _ | k
        · simp
        · simp [List.getD]

/-- C7 (counterexample): the claim "`next_field` on the last field wraps
to the first field" is false for the Group draft's field order
`[Name, Notes]`: from `Notes` the scan sets the found flag on the last
iteration and the loop ends, leaving the cursor on `Notes`, not `Name`. -/
theorem c7_counterexample :
    nextField ["Name", "Notes"] "Notes" = "Notes" ∧
    nextField ["Name", "Notes"] "Notes" ≠ "Name" := by
  decide

/-- C7 (amended): on a duplicate-free field order, `next_field` from the
last field is a no-op (not a wrap), `prev_field` from the first field is a
no-op, and otherwise each moves one position forward or back in insertion
order.  (`min (i+1) (len-1)` is `i+1` except on the last field, where it
is `i`; `i-1` over `Nat` is `i` when `i = 0`.) -/
theorem c7_field_cursor (ks : List String) (i : Nat) (hnd : ks.Nodup)
    (hi : i < ks.length) :
    nextField ks (ks.getD i "") = ks.getD (min (i + 1) (ks.length - 1)) "" ∧
    prevField ks (ks.getD i "") = ks.getD (i - 1) "" := by
  constructor
  · exact nextFieldGo_spec ks i hi hnd
  · cases ks with
    | nil => simp at hi
    | cons f rest =>
        show prevFieldGo ((f :: rest).getD i "") (f :: rest) f = _
        rw [prevFieldGo_spec (f :: rest) f i hi hnd]
        rcases i with _ | j
        · rfl
        · simp

/-- Witness for `c7_field_cursor` on the Entry draft's field order at
cursor position 1 (`UserName`): `next_field` moves to `Password`,
`prev_field` moves back to `Title`. -/
theorem c7_field_cursor_witness :
    (["Title", "UserName", "Password", "URL", "Notes"].Nodup ∧
     1 < ["Title", "UserName", "Password", "URL", "Notes"].length) ∧
    (nextField ["Title", "UserName", "Password", "URL", "Notes"]
        (["Title", "UserName", "Password", "URL", "Notes"].getD 1 "") =
      ["Title", "UserName", "Password", "URL", "Notes"].getD
        (min (1 + 1) (["Title", "UserName", "Password", "URL", "Notes"].length - 1)) "" ∧
     prevField ["Title", "UserName", "Password", "URL", "Notes"]
        (["Title", "UserName", "Password", "URL", "Notes"].getD 1 "") =
      ["Title", "UserName", "Password", "URL", "Notes"].getD (1 - 1) "") :=
  ⟨⟨by decide, by decide⟩,
   c7_field_cursor ["Title", "UserName", "Password", "URL", "Notes"] 1
     (by decide) (by decide)⟩

/-! ## Password generation (`AddEditState.generate_password`) -/

/-- The seed string `s` of `generate_password`:
`"abcdefghijklmnopqrstuvwxyz01234567890ABCDEFGHIJKLMNOPQRSTUVWXYZ"`.
Note the digit block `01234567890` — 11 characters with `'0'` at both
ends, so the seed has 63 characters and contains `'0'` twice. -/
def passwordSeed : List Char :=
  "abcdefghijklmnopqrstuvwxyz01234567890ABCDEFGHIJKLMNOPQRSTUVWXYZ".toList

/-- `random.sample(s, k)` returns the elements of `s` at `k` distinct
random positions; the chosen position list `idx` is passed in explicitly
(`random.sample`'s contract: positions pairwise distinct and in range). -/
def pySample (s : List Char) (idx : List Nat) : List Char :=
  idx.map fun i => s.getD i ' '

/-- `AddEditState.generate_password` with the sampled positions `idx`:
build the password, remember the cursor, move the cursor to Password,
write the value there, restore the cursor. -/
def generatePassword (idx : List Nat) (st : AddEditFields) : AddEditFields :=
  let gen_password : String := String.mk (pySample passwordSeed idx)
  let prev_field := st.current_field
  setCurField (setCurFieldValue (setCurField st "Password") (some gen_password)) prev_field

/-- Reading back a key just stored with `setItem` yields the new value. -/
theorem getField_setItem (fs : List (String × Option String)) (k : String)
    (v : Option String) : getField (setItem fs k v) k = some v := by
  by_cases hany : fs.any (fun p => p.1 = k)
  · simp only [setItem, if_pos hany]
    induction fs with
    | nil => simp at hany
    | cons p rest ih =>
        by_cases hp : p.1 = k
        · simp only [List.map_cons, if_pos hp]
          show getField ((p.1, v) :: _) k = some v
          simp only [getField, if_pos hp]
        · have hrest : rest.any (fun q => q.1 = k) := by
            simp only [List.any_cons, Bool.or_eq_true, decide_eq_true_eq] at hany
            rcases hany with h | h
            · exact absurd h hp
            · exact h
          simp only [List.map_cons, if_neg hp]
          show getField (p :: _) k = some v
          simp only [getField, if_neg hp]
          exact ih hrest
  · simp only [setItem, if_neg hany]
    induction fs with
    | nil => simp [getField]
    | cons p rest ih =>
        simp only [List.any_cons, Bool.or_eq_true, decide_eq_true_eq] at hany
        push_neg at hany
        have hp : ¬ p.1 = k := hany.1
        have hrest : ¬ rest.any (fun q => q.1 = k) := hany.2
        show getField (p :: _) k = some v
        simp only [getField, if_neg hp]
        exact ih hrest

/-- The mapped seed positions `0..62` give back the seed itself. -/
theorem range_map_seed :
    (List.range 63).map (fun i => passwordSeed.getD i ' ') = passwordSeed := by
  decide

/-- Every character of a valid sample occurs in the sample at most as
often as in the seed. -/
theorem pySample_count_le_seed (idx : List Nat) (hnd : idx.Nodup)
    (hlt : ∀ i ∈ idx, i < 63) (c : Char) :
    (pySample passwordSeed idx).count c ≤ passwordSeed.count c := by
  have hsub : idx ⊆ List.range 63 := fun i hi => List.mem_range.mpr (hlt i hi)
  obtain ⟨l, hperm, hsl⟩ := hnd.subperm hsub
  have hmapsub : List.Subperm (pySample passwordSeed idx) passwordSeed := by
    refine ⟨l.map (fun i => passwordSeed.getD i ' '), ?_, ?_⟩
    · exact hperm.map _
    · rw [← range_map_seed]
      exact hsl.map _
  exact hmapsub.count_le c

/-- C6 (amended): for any valid `random.sample` outcome, the generated
password is written into the Password field, is 8 characters long, all of
them from the alphanumeric seed; the cursor is restored.  But the seed
contains `'0'` twice (`"...01234567890..."`), so "no repeated character"
only holds up to that duplicate: every character other than `'0'` occurs
at most once, and `'0'` occurs at most twice. -/
theorem c6_generate_password (st : AddEditFields) (idx : List Nat)
    (hlen : idx.length = 8) (hnd : idx.Nodup) (hlt : ∀ i ∈ idx, i < 63) :
    getField (generatePassword idx st).fields "Password" =
      some (some (String.mk (pySample passwordSeed idx))) ∧
    (String.mk (pySample passwordSeed idx)).length = 8 ∧
    (generatePassword idx st).current_field = st.current_field ∧
    (∀ c ∈ pySample passwordSeed idx, c.isAlphanum = true) ∧
    (pySample passwordSeed idx).count '0' ≤ 2 ∧
    (∀ c : Char, c ≠ '0' → (pySample passwordSeed idx).count c ≤ 1) := by
  refine ⟨?_, ?_, ?_, ?_, ?_, ?_⟩
  · show getField (setItem st.fields "Password" _) "Password" = _
    exact getField_setItem _ _ _
  · show (pySample passwordSeed idx).length = 8
    rw [pySample, List.length_map, hlen]
  · rfl
  · have hall : ∀ c ∈ passwordSeed, c.isAlphanum = true := by decide
    intro c hc
    obtain ⟨i, hi, hfc⟩ := List.mem_map.mp hc
    have hseed : c ∈ passwordSeed := by
      rw [← hfc, List.getD_eq_getElem passwordSeed ' ' (by simpa using hlt i hi)]
      exact List.getElem_mem _
    exact hall c hseed
  · have h2 : passwordSeed.count '0' = 2 := by decide
    have := pySample_count_le_seed idx hnd hlt '0'
    omega
  · intro c hc
    have honce : ∀ d ∈ passwordSeed, d = '0' ∨ passwordSeed.count d = 1 := by decide
    have hle1 : passwordSeed.count c ≤ 1 := by
      by_cases hin : c ∈ passwordSeed
      · rcases honce c hin with h0 | h1
        · exact absurd h0 hc
        · omega
      · have h0 : passwordSeed.count c = 0 := List.count_eq_zero.mpr hin
        omega
    have := pySample_count_le_seed idx hnd hlt c
    omega

/-- C6 (counterexample): the sample positions `[26, 36, 0, 1, 2, 3, 4, 5]`
are a possible `random.sample` outcome (8 distinct in-range positions),
and they yield the password `"00abcdef"`, which repeats the character
`'0'` — contradicting the claim's "no repeated character" for every call. -/
theorem c6_counterexample :
    ([26, 36, 0, 1, 2, 3, 4, 5] : List Nat).Nodup ∧
    (∀ i ∈ ([26, 36, 0, 1, 2, 3, 4, 5] : List Nat), i < 63) ∧
    ([26, 36, 0, 1, 2, 3, 4, 5] : List Nat).length = 8 ∧
    getField (generatePassword [26, 36, 0, 1, 2, 3, 4, 5] entryDraftInit).fields
      "Password" = some (some "00abcdef") ∧
    ¬ ("00abcdef".toList.Nodup) := by
  decide

/-- Witness for `c6_generate_password` at the sample `[0,…,7]` on the
fresh Entry draft. -/
theorem c6_generate_password_witness :
    (([0, 1, 2, 3, 4, 5, 6, 7] : List Nat).length = 8 ∧
     ([0, 1, 2, 3, 4, 5, 6, 7] : List Nat).Nodup ∧
     (∀ i ∈ ([0, 1, 2, 3, 4, 5, 6, 7] : List Nat), i < 63)) ∧
    (getField (generatePassword [0, 1, 2, 3, 4, 5, 6, 7] entryDraftInit).fields
        "Password" =
      some (some (String.mk (pySample passwordSeed [0, 1, 2, 3, 4, 5, 6, 7]))) ∧
     (String.mk (pySample passwordSeed [0, 1, 2, 3, 4, 5, 6, 7])).length = 8 ∧
     (generatePassword [0, 1, 2, 3, 4, 5, 6, 7] entryDraftInit).current_field =
       entryDraftInit.current_field ∧
     (∀ c ∈ pySample passwordSeed [0, 1, 2, 3, 4, 5, 6, 7], c.isAlphanum = true) ∧
     (pySample passwordSeed [0, 1, 2, 3, 4, 5, 6, 7]).count '0' ≤ 2 ∧
     (∀ c : Char, c ≠ '0' →
        (pySample passwordSeed [0, 1, 2, 3, 4, 5, 6, 7]).count c ≤ 1)) :=
  ⟨⟨by decide, by decide, by decide⟩,
   c6_generate_password entryDraftInit [0, 1, 2, 3, 4, 5, 6, 7]
     (by decide) (by decide) (by decide)⟩

/-! ## Commit (`KeePass.finish_add_edit`, `ItemType.GROUP` branch)

`get_rawstrings` returns the draft's `fields` items in insertion order;
the GROUP branch walks that list. -/

/-- The name/notes attributes of the Group being edited. -/
structure GroupAttrs where
  name : Option String
  notes : Option String
deriving DecidableEq, Repr

/-- `ProcessType.EDIT` body for a Group: for each raw `(key, value)`,
`if key == 'Name': group.name = value` and `if key == 'Note':
group.notes = value` — the second comparison uses the literal `'Note'`,
while the Group draft's field key is `"Notes"`. -/
def finishEditGroup (raw : List (String × Option String)) (g : GroupAttrs) :
    GroupAttrs :=
  raw.foldl (fun g kv =>
    let g1 := if kv.1 = "Name" then { g with name := kv.2 } else g
    if kv.1 = "Note" then { g1 with notes := kv.2 } else g1) g

/-- The `gr_name` computation shared by both Group sub-branches: it starts
as the literal string `"None"` and is overwritten by the value of every
raw string whose key is `"Name"`.  `ProcessType.ADD` then runs
`KeeGroup(root=self, parent=group_item, name=gr_name)` (so the new
group's name is `gr_name` and its notes keep the constructor default
`""`). -/
def finishAddGroupName (raw : List (String × Option String)) : Option String :=
  raw.foldl (fun acc kv => if kv.1 = "Name" then kv.2 else acc) (some "None")

/-- C5: the claim is the intended behaviour, and the code diverges from it
twice.  Edit mode: committing a Group draft with `Name = "G"`,
`Notes = "new note"` onto a group with notes `"old note"` renames the
group but leaves the notes untouched, because the loop compares the key
against `'Note'` while the draft key is `"Notes"`.  Add mode: the Group
draft always contains a `Name` key, so when Name was never set its value
(Python `None`) overwrites the `"None"` default and the created group's
name is `None`, not the literal string `"None"`. -/
theorem c5_finish_group_divergences :
    (finishEditGroup [("Name", some "G"), ("Notes", some "new note")]
        ⟨some "old", some "old note"⟩).name = some "G" ∧
    (finishEditGroup [("Name", some "G"), ("Notes", some "new note")]
        ⟨some "old", some "old note"⟩).notes = some "old note" ∧
    finishAddGroupName [("Name", none), ("Notes", none)] = none ∧
    finishAddGroupName [("Name", none), ("Notes", none)] ≠ some "None" := by
  decide

/-! ## Entry name derivation (`KeeEntry.append`, `KeeEntry.update_item`,
`EntryString.__setattr__`)

An `EntryString` owned by an entry is modelled by its `key`/`value`
attributes; `Option String` values, with `none` for Python `None`. -/

/-- The `key`/`value` attributes of one `EntryString`. -/
structure FieldString where
  key : Option String
  value : Option String
deriving DecidableEq, Repr

/-- The attributes of a `KeeEntry` relevant to name derivation. -/
structure EntryModel where
  name : Option String
  items : List FieldString
  size : Nat
deriving DecidableEq, Repr

/-- `KeeEntry.append` for an `EntryString` (after the isinstance check):
push the item, `size += 1`, and `if item.key == "Title": self.name =
item.value`.  (`EntryString.__init__` performs the same name write when
the string is constructed with this entry as its parent.) -/
def entryAppend (e : EntryModel) (s : FieldString) : EntryModel :=
  { name := if s.key = some "Title" then s.value else e.name,
    items := e.items ++ [s],
    size := e.size + 1 }

/-- `KeeEntry.update_item(key, value)`: return immediately when `key` is
`None`; otherwise every item with matching key receives `item.value =
value`, and that assignment is intercepted by `EntryString.__setattr__`,
which — the matched item's key being `"Title"` and its parent this
entry — also writes `self._parent.name = value`.  The loop is rendered
as a map over the items plus the name write when some item matched a
`"Title"` key. -/
def updateItem (e : EntryModel) (key value : Option String) : EntryModel :=
  if key = none then e
  else
    { e with
      items := e.items.map (fun it => if it.key = key then { it with value := value } else it),
      name :=
        if key = some "Title" ∧ e.items.any (fun it => it.key = key) then value
        else e.name }

/-- C9: appending a Title string, or running `update_item("Title", v)` on
an entry that owns a Title string, makes the entry's derived `name` equal
to the new value — for every value, including the empty string and
`None`. -/
theorem c9_title_sets_name (e : EntryModel) (s : FieldString) (v : Option String)
    (hs : s.key = some "Title") (he : ∃ it ∈ e.items, it.key = some "Title") :
    (entryAppend e s).name = s.value ∧
    (updateItem e (some "Title") v).name = v := by
  constructor
  · simp [entryAppend, hs]
  · have hany : e.items.any (fun it => it.key = some "Title") := by
      obtain ⟨it, hmem, hkey⟩ := he
      simp only [List.any_eq_true, decide_eq_true_eq]
      exact ⟨it, hmem, hkey⟩
    simp [updateItem, hany]

/-- Witness for `c9_title_sets_name`: an entry owning a single Title
string, appending another Title string with the empty-string value and
updating Title to the empty string. -/
theorem c9_title_sets_name_witness :
    ((⟨some "Title", some ""⟩ : FieldString).key = some "Title" ∧
     ∃ it ∈ (⟨some "site", [⟨some "Title", some "site"⟩], 1⟩ : EntryModel).items,
       it.key = some "Title") ∧
    ((entryAppend ⟨some "site", [⟨some "Title", some "site"⟩], 1⟩
        ⟨some "Title", some ""⟩).name = some "" ∧
     (updateItem ⟨some "site", [⟨some "Title", some "site"⟩], 1⟩
        (some "Title") (some "")).name = some "") :=
  ⟨⟨by decide, ⟨⟨some "Title", some "site"⟩, by decide, by decide⟩⟩,
   c9_title_sets_name ⟨some "site", [⟨some "Title", some "site"⟩], 1⟩
     ⟨some "Title", some ""⟩ (some "")
     (by decide) ⟨⟨some "Title", some "site"⟩, by decide, by decide⟩⟩

/-! ## Attribute interception (`EntryString.__setattr__`)

Python attribute values are untyped; the relevant variants are modelled
by `PyVal`.  After `__init__` the object always has a `key` attribute, so
`hasattr(self, 'key')` holds. -/

/-- Untyped Python attribute values: `None`, a string, an int, or an
`ItemType` enum member (by its value string). -/
inductive PyVal where
  | vNone : PyVal
  | vStr : String → PyVal
  | vInt : Int → PyVal
  | vItemType : String → PyVal
deriving DecidableEq, Repr

/-- The writable attributes of an `EntryString` object (from
`BaseKeePass.__init__` and `EntryString.__init__`). -/
inductive StrAttr where
  | attrPage : StrAttr
  | attrSize : StrAttr
  | attrType : StrAttr
  | attrKey : StrAttr
  | attrValue : StrAttr
deriving DecidableEq, Repr

/-- An `EntryString` object after construction: every attribute holds a
`PyVal`. -/
structure PyEntryString where
  page : PyVal
  size : PyVal
  type : PyVal
  key : PyVal
  value : PyVal
deriving DecidableEq, Repr

/-- `EntryString.__setattr__(name, value)` on a constructed object:
`hasattr(self, 'key')` holds, so if `self.key == "Title"` the assignment
first writes `self._parent.name = value`, then performs the ordinary
attribute write.  The result is the parent's new `name` attribute
together with the updated object. -/
def pySetattr (parentName : PyVal) (s : PyEntryString) (a : StrAttr) (v : PyVal) :
    PyVal × PyEntryString :=
  let parentName1 := if s.key = PyVal.vStr "Title" then v else parentName
  (parentName1,
   match a with
   | .attrPage => { s with page := v }
   | .attrSize => { s with size := v }
   | .attrType => { s with type := v }
   | .attrKey => { s with key := v }
   | .attrValue => { s with value := v })

/-- C10: on a FieldString whose key is `"Title"`, assigning any attribute
— `value`, but also `page`, `size` or `type` — overwrites the owning
entry's `name` with the assigned value. -/
theorem c10_setattr_renames (pn : PyVal) (s : PyEntryString) (a : StrAttr)
    (v : PyVal) (h : s.key = PyVal.vStr "Title") :
    (pySetattr pn s a v).1 = v := by
  simp [pySetattr, h]

/-- Witness for `c10_setattr_renames`: a pagination write `page = 2` on a
Title string renames the owning entry to the integer 2. -/
theorem c10_setattr_renames_witness :
    (PyEntryString.mk (PyVal.vInt 1) (PyVal.vInt 0) (PyVal.vItemType "String")
        (PyVal.vStr "Title") (PyVal.vStr "site")).key = PyVal.vStr "Title" ∧
    (pySetattr (PyVal.vStr "site")
        (PyEntryString.mk (PyVal.vInt 1) (PyVal.vInt 0) (PyVal.vItemType "String")
          (PyVal.vStr "Title") (PyVal.vStr "site"))
        StrAttr.attrPage (PyVal.vInt 2)).1 = PyVal.vInt 2 :=
  ⟨by decide,
   c10_setattr_renames (PyVal.vStr "site")
     (PyEntryString.mk (PyVal.vInt 1) (PyVal.vInt 0) (PyVal.vItemType "String")
       (PyVal.vStr "Title") (PyVal.vStr "site"))
     StrAttr.attrPage (PyVal.vInt 2) (by decide)⟩

/-! ## Search overlay (`KeePass.search_item` and `KeePass.search`)

Object identity of `EntryString`s matters here: the document keeps a
store of all `EntryString` objects and entries refer to them by store
index, so "the very same object" is "the same index" and "a copy" would
be a different index. -/

/-- One `EntryString` object in the store. -/
structure SFieldString where
  key : Option String
  value : Option String
deriving DecidableEq, Repr

/-- A canonical tree node: a `KeeGroup` with its name and children, or a
`KeeEntry` with its (derived) name and the store indices of its
`EntryString` children. -/
inductive SNode where
  | grp : String → List SNode → SNode
  | ent : String → List Nat → SNode

mutual

/-- Decidable equality of canonical nodes (the automatic derivation does
not handle the nested `List SNode`). -/
def decEqSNode : (a b : SNode) → Decidable (a = b)
  | SNode.grp n1 cs1, SNode.grp n2 cs2 =>
      match String.decEq n1 n2 with
      | isFalse h => isFalse (by intro he; injection he; contradiction)
      | isTrue h1 =>
          match decEqSNodeList cs1 cs2 with
          | isFalse h => isFalse (by intro he; injection he; contradiction)
          | isTrue h2 => isTrue (by rw [h1, h2])
  | SNode.grp _ _, SNode.ent _ _ => isFalse (fun h => SNode.noConfusion h)
  | SNode.ent _ _, SNode.grp _ _ => isFalse (fun h => SNode.noConfusion h)
  | SNode.ent n1 rs1, SNode.ent n2 rs2 =>
      match String.decEq n1 n2 with
      | isFalse h => isFalse (by intro he; injection he; contradiction)
      | isTrue h1 =>
          match instDecidableEqList rs1 rs2 with
          | isFalse h => isFalse (by intro he; injection he; contradiction)
          | isTrue h2 => isTrue (by rw [h1, h2])
termination_by structural a => a

/-- Decidable equality of lists of canonical nodes. -/
def decEqSNodeList : (a b : List SNode) → Decidable (a = b)
  | [], [] => isTrue rfl
  | [], _ :: _ => isFalse (fun h => List.noConfusion h)
  | _ :: _, [] => isFalse (fun h => List.noConfusion h)
  | a :: as, b :: bs =>
      match decEqSNode a b with
      | isFalse h => isFalse (by intro he; injection he; contradiction)
      | isTrue h1 =>
          match decEqSNodeList as bs with
          | isFalse h => isFalse (by intro he; injection he; contradiction)
          | isTrue h2 => isTrue (by rw [h1, h2])
termination_by structural a => a

end

instance : DecidableEq SNode := decEqSNode

/-- The `name` attribute read by the search loop. -/
def SNode.name : SNode → String
  | .grp n _ => n
  | .ent n _ => n

/-- Prefix test on character lists (helper for the substring test). -/
def startsWith : List Char → List Char → Bool
  | [], _ => true
  | _ :: _, [] => false
  | a :: as, b :: bs => a == b && startsWith as bs

/-- Contiguous-substring test on character lists. -/
def hasSub (needle : List Char) : List Char → Bool
  | [] => startsWith needle []
  | b :: bs => startsWith needle (b :: bs) || hasSub needle bs

/-- Python's `str.lower()`: lowercase character by character (as a
character list). -/
def pyLower (s : String) : List Char :=
  s.toList.map Char.toLower

/-- Python's `word.lower() in name.lower()`. -/
def lowerContains (word name : String) : Bool :=
  hasSub (pyLower word) (pyLower name)

mutual

/-- `__inner_find(parent_item)` of `KeePass.search_item` (started at the
root group): record the group itself if its name matches, then walk its
children — recursing into child groups before the child's own membership
test, so a matching child group is recorded twice. -/
def innerFind (word : String) : SNode → List SNode
  | .grp gname children =>
      (if lowerContains word gname then [SNode.grp gname children] else []) ++
      findInChildren word children
  | .ent _ _ => []
termination_by structural t => t

/-- The `for item in parent_item.items` loop of `__inner_find`: child
groups are recursed into, then every child (group or entry) is appended
when its name matches. -/
def findInChildren (word : String) : List SNode → List SNode
  | [] => []
  | c :: rest =>
      (match c with
       | SNode.grp gname gchildren =>
           innerFind word (SNode.grp gname gchildren) ++
           (if lowerContains word gname then [SNode.grp gname gchildren] else [])
       | SNode.ent ename refs =>
           (if lowerContains word ename then [SNode.ent ename refs] else [])) ++
      findInChildren word rest
termination_by structural l => l

end

/-- The overlay entry built for one matched entry: a fresh `KeeEntry`
whose appended children are the matched entry's own `EntryString`
objects (same store indices). -/
structure TempEntry where
  name : Option String
  refs : List Nat
  size : Nat
deriving DecidableEq, Repr

/-- The ephemeral search group: `KeeGroup(self, self.active_item,
name="Search")` plus the temp entries appended to it. -/
structure Overlay where
  name : String
  entries : List TempEntry
deriving DecidableEq, Repr

/-- The session's `active_item` pointer: a canonical node or the search
overlay. -/
inductive ActiveItem where
  | canonical : SNode → ActiveItem
  | overlayActive : ActiveItem
deriving DecidableEq

/-- The session state used by `search`: the object store, the document
root, `active_item` and `search_group`. -/
structure KPState where
  store : List SFieldString
  root : SNode
  active : ActiveItem
  searchGroup : Option Overlay
deriving DecidableEq

/-- `temp_entry = KeeEntry(self, self.search_group, AutoType(True))`
followed by `temp_entry.append(string)` for every `EntryString` of the
matched entry: the same objects (store indices) are appended in order,
`size` grows, and a `"Title"` key rewrites the temp entry's derived
name. -/
def mkTempEntry (store : List SFieldString) (refs : List Nat) : TempEntry :=
  refs.foldl (fun te r =>
    let s := store.getD r ⟨none, none⟩
    { name := if s.key = some "Title" then s.value else te.name,
      refs := te.refs ++ [r],
      size := te.size + 1 })
    { name := some "", refs := [], size := 0 }

/-- The store-index lists of the matched entries, in match order (the
`if isinstance(item, KeeEntry)` filter of the `search` loop; matched
groups fall through the loop body and are never added). -/
def matchedEntryRefs (found : List SNode) : List (List Nat) :=
  found.filterMap fun n =>
    match n with
    | SNode.ent _ refs => some refs
    | SNode.grp _ _ => none

/-- `KeePass.search(word)`: run `search_item`, build the overlay group
from the matched entries only, store it in `search_group` and activate
it. -/
def search (st : KPState) (word : String) : KPState :=
  let found := innerFind word st.root
  let overlay : Overlay :=
    { name := "Search",
      entries := (matchedEntryRefs found).map (mkTempEntry st.store) }
  { st with searchGroup := some overlay, active := ActiveItem.overlayActive }

/-- The append loop of `mkTempEntry` aliases exactly the given store
indices, in order. -/
theorem mkTempEntry_refs (store : List SFieldString) (refs : List Nat) :
    (mkTempEntry store refs).refs = refs := by
  suffices h : ∀ (te : TempEntry),
      (refs.foldl (fun te r =>
        let s := store.getD r ⟨none, none⟩
        ({ name := if s.key = some "Title" then s.value else te.name,
           refs := te.refs ++ [r],
           size := te.size + 1 } : TempEntry)) te).refs = te.refs ++ refs by
    have := h { name := some "", refs := [], size := 0 }
    simpa [mkTempEntry] using this
  induction refs with
  | nil => intro te; simp
  | cons r rest ih =>
      intro te
      simp only [List.foldl_cons]
      rw [ih]
      simp

/-- C3 (amended): after any `search`, the overlay group has name
`"Search"` and becomes the active node; its entries are, in order, one
fresh entry per matched Entry whose child list aliases exactly the
matched entry's own `EntryString` objects (the same store indices, not
copies); matched Groups contribute nothing to the overlay (they are
skipped by the `isinstance(item, KeeEntry)` filter, not included as
references). -/
theorem c3_search_overlay (st : KPState) (word : String) :
    ((search st word).searchGroup.map fun ov => ov.entries.map TempEntry.refs) =
      some (matchedEntryRefs (innerFind word st.root)) ∧
    ((search st word).searchGroup.map Overlay.name) = some "Search" ∧
    (search st word).active = ActiveItem.overlayActive := by
  refine ⟨?_, rfl, rfl⟩
  show some (((matchedEntryRefs (innerFind word st.root)).map
      (mkTempEntry st.store)).map TempEntry.refs) =
    some (matchedEntryRefs (innerFind word st.root))
  rw [List.map_map]
  exact congrArg some
    ((List.map_congr_left fun rl _ => mkTempEntry_refs st.store rl).trans
      (List.map_id _))

/-- The document of the C3 counterexample: a root group `"root"`
containing one (matching) child group `"abc"` and nothing else. -/
def c3doc : KPState :=
  { store := [],
    root := SNode.grp "root" [SNode.grp "abc" []],
    active := ActiveItem.canonical (SNode.grp "root" [SNode.grp "abc" []]),
    searchGroup := none }

/-- C3 (counterexample): searching `"abc"` in `c3doc` matches the group
`"abc"` (twice, in fact), yet the overlay contains no node at all — the
matched Group is not included in the overlay, contradicting the claim
that every matched Group is included as a reference. -/
theorem c3_counterexample :
    SNode.grp "abc" [] ∈ innerFind "abc" c3doc.root ∧
    (search c3doc "abc").searchGroup = some { name := "Search", entries := [] } := by
  constructor
  · decide
  · decide

/-! ## Overlay aliasing (invariant claim C4) -/

mutual

/-- All store indices of `EntryString` objects reachable from a canonical
subtree. -/
def treeRefs : SNode → List Nat
  | SNode.grp _ children => treeRefsList children
  | SNode.ent _ refs => refs
termination_by structural t => t

/-- All store indices reachable from a list of canonical subtrees. -/
def treeRefsList : List SNode → List Nat
  | [] => []
  | c :: rest => treeRefs c ++ treeRefsList rest
termination_by structural l => l

end

/-- All store indices of `EntryString` objects reachable from the search
overlay. -/
def overlayRefs (ov : Overlay) : List Nat :=
  (ov.entries.map TempEntry.refs).flatten

/-- `matchedEntryRefs` distributes over list append. -/
theorem matchedEntryRefs_append (a b : List SNode) :
    matchedEntryRefs (a ++ b) = matchedEntryRefs a ++ matchedEntryRefs b := by
  simp [matchedEntryRefs]

/-- A conditionally recorded group contributes no matched-entry refs. -/
theorem matchedEntryRefs_if_grp (cond : Bool) (gname : String)
    (gchildren : List SNode) :
    matchedEntryRefs (if cond then [SNode.grp gname gchildren] else []) = [] := by
  cases cond <;> simp [matchedEntryRefs]

/-- A conditionally recorded entry contributes its child-ref list when
recorded. -/
theorem matchedEntryRefs_if_ent (cond : Bool) (ename : String)
    (refs : List Nat) :
    matchedEntryRefs (if cond then [SNode.ent ename refs] else []) =
      (if cond then [refs] else []) := by
  cases cond <;> simp [matchedEntryRefs]

mutual

/-- Matched-entry child lists only contain store indices of the searched
subtree. -/
theorem innerFind_refs_sound (word : String) : (t : SNode) →
    ∀ rl ∈ matchedEntryRefs (innerFind word t), ∀ r ∈ rl, r ∈ treeRefs t
  | SNode.grp gname children => by
      intro rl hrl r hr
      rw [innerFind, matchedEntryRefs_append, matchedEntryRefs_if_grp] at hrl
      rw [List.nil_append] at hrl
      show r ∈ treeRefsList children
      exact findInChildren_refs_sound word children rl hrl r hr
  | SNode.ent _ _ => by
      intro rl hrl
      simp [innerFind, matchedEntryRefs] at hrl

/-- Matched-entry child lists of the child loop only contain store
indices of the children. -/
theorem findInChildren_refs_sound (word : String) : (cs : List SNode) →
    ∀ rl ∈ matchedEntryRefs (findInChildren word cs),
      ∀ r ∈ rl, r ∈ treeRefsList cs
  | [] => by
      intro rl hrl
      simp [findInChildren, matchedEntryRefs] at hrl
  | c :: rest => by
      intro rl hrl r hr
      show r ∈ treeRefs c ++ treeRefsList rest
      rw [List.mem_append]
      cases c with
      | grp gname gchildren =>
          rw [findInChildren, matchedEntryRefs_append, matchedEntryRefs_append,
            matchedEntryRefs_if_grp, List.append_nil] at hrl
          rcases List.mem_append.mp hrl with hin | hin
          · exact Or.inl (innerFind_refs_sound word (SNode.grp gname gchildren) rl hin r hr)
          · exact Or.inr (findInChildren_refs_sound word rest rl hin r hr)
      | ent ename refs =>
          rw [findInChildren, matchedEntryRefs_append, matchedEntryRefs_if_ent] at hrl
          rcases List.mem_append.mp hrl with hin | hin
          · rcases hmatch : lowerContains word ename with _ | _
            · rw [hmatch] at hin
              simp at hin
            · rw [hmatch] at hin
              simp only [if_true, List.mem_singleton] at hin
              subst hin
              exact Or.inl hr
          · exact Or.inr (findInChildren_refs_sound word rest rl hin r hr)

end

/-- C4 (amended): the search overlay does share mutable structure with
the source tree — every `EntryString` reachable from the overlay is the
very same object (same store index) as an `EntryString` of the canonical
document tree, exactly the opposite of the claimed copy-only invariant
(and in line with the aliasing the spec itself describes in its search
section). -/
theorem c4_overlay_refs_alias (st : KPState) (word : String) (ov : Overlay)
    (r : Nat) (hov : (search st word).searchGroup = some ov)
    (hr : r ∈ overlayRefs ov) : r ∈ treeRefs st.root := by
  have hoveq : ov =
      { name := "Search",
        entries := (matchedEntryRefs (innerFind word st.root)).map
          (mkTempEntry st.store) } := by
    have : (search st word).searchGroup =
        some { name := "Search",
               entries := (matchedEntryRefs (innerFind word st.root)).map
                 (mkTempEntry st.store) } := rfl
    rw [this] at hov
    exact (Option.some_inj.mp hov).symm
  subst hoveq
  simp only [overlayRefs, List.mem_flatten] at hr
  obtain ⟨rl, hrl, hrmem⟩ := hr
  simp only [List.map_map, List.mem_map] at hrl
  obtain ⟨rl0, hrl0, hrl0eq⟩ := hrl
  have : rl = rl0 := by
    rw [← hrl0eq]
    exact mkTempEntry_refs st.store rl0
  subst this
  exact innerFind_refs_sound word st.root rl hrl0 r hrmem

/-- The document of the C4 counterexample and witness: a root group
`"r"` with a single entry `"abc"` owning the `EntryString` at store
index 0 (a Title string with value `"abc"`). -/
def c4doc : KPState :=
  { store := [⟨some "Title", some "abc"⟩],
    root := SNode.grp "r" [SNode.ent "abc" [0]],
    active := ActiveItem.canonical (SNode.grp "r" [SNode.ent "abc" [0]]),
    searchGroup := none }

/-- C4 (counterexample): after searching `"abc"` in `c4doc`, the single
`EntryString` reachable from the overlay is the object at store index 0 —
the very `EntryString` owned by the canonical tree, not a copy.  The
claimed no-shared-structure invariant is false at this input. -/
theorem c4_counterexample :
    ((search c4doc "abc").searchGroup.map overlayRefs) = some [0] ∧
    0 ∈ treeRefs c4doc.root := by
  constructor
  · decide
  · decide

/-- Witness for `c4_overlay_refs_alias` at `c4doc`: store index 0 is
reachable from the overlay and lies in the canonical tree. -/
theorem c4_overlay_refs_alias_witness :
    ((search c4doc "abc").searchGroup =
        some { name := "Search", entries := [⟨some "abc", [0], 1⟩] } ∧
      0 ∈ overlayRefs { name := "Search", entries := [⟨some "abc", [0], 1⟩] }) ∧
    0 ∈ treeRefs c4doc.root :=
  ⟨⟨by decide, by decide⟩,
   c4_overlay_refs_alias c4doc "abc"
     { name := "Search", entries := [⟨some "abc", [0], 1⟩] } 0
     (by decide) (by decide)⟩

/-! ## XML codec (`KeeGroup.get_xml_element`, `KeeEntry.get_xml_element`,
`EntryString.get_xml_element`, `AutoType.get_xml_element`,
`KeePass._init_root_group`)

Helper pair: Python's `str()` on a non-negative int and `int()` on a
string (the only conversions the codec performs on `IconID`; every icon
id this program handles is a non-negative decimal literal). -/

/-- Decimal digit character for `d < 10`. -/
def digitChar (d : Nat) : Char := Char.ofNat (48 + d)

/-- Decimal digits of `n`, most significant first (`[]` for 0), with a
structural fuel so that the kernel can evaluate it; the fuel is always
instantiated with `n` itself, which bounds the digit count. -/
def pyStrNatAux : Nat → Nat → List Char
  | _, 0 => []
  | 0, _ + 1 => []
  | fuel + 1, n + 1 =>
      pyStrNatAux fuel ((n + 1) / 10) ++ [digitChar ((n + 1) % 10)]

/-- Python `str()` of a non-negative int. -/
def pyStrNat (n : Nat) : String :=
  if n = 0 then "0" else String.mk (pyStrNatAux n n)

/-- Value of a decimal digit character, `none` for a non-digit. -/
def charVal (c : Char) : Option Nat :=
  if 48 ≤ c.toNat ∧ c.toNat ≤ 57 then some (c.toNat - 48) else none

/-- Accumulating decimal parse; fails on the first non-digit. -/
def pyIntAux : List Char → Nat → Option Nat
  | [], acc => some acc
  | c :: rest, acc =>
      match charVal c with
      | some d => pyIntAux rest (acc * 10 + d)
      | none => none

/-- Python `int()` on a string: non-negative decimal literals (all this
program ever writes); anything else raises ValueError (`none`). -/
def pyIntNat (s : String) : Option Nat :=
  match s.toList with
  | [] => none
  | cs => pyIntAux cs 0

/-- Python `int()` applied to an element text: `int(None)` raises
TypeError (`none`). -/
def pyIntOpt : Option String → Option Nat
  | none => none
  | some s => pyIntNat s

/-- Parsing after a non-empty digit run continues the accumulator. -/
theorem pyIntAux_append (l1 l2 : List Char) (acc : Nat) :
    pyIntAux (l1 ++ l2) acc =
      (pyIntAux l1 acc).bind (pyIntAux l2) := by
  induction l1 generalizing acc with
  | nil => simp [pyIntAux]
  | cons c rest ih =>
      cases h : charVal c with
      | none => simp [pyIntAux, h]
      | some d => simp [pyIntAux, h, ih]

/-- A digit character parses back to its value. -/
theorem charVal_digitChar (d : Nat) (hd : d < 10) :
    charVal (digitChar d) = some d := by
  interval_cases d <;> decide

/-- The digit run of a positive `n` is non-empty (with sufficient fuel). -/
theorem pyStrNatAux_ne_nil (fuel n : Nat) (hn : 0 < n) (hf : n ≤ fuel) :
    pyStrNatAux fuel n ≠ [] := by
  cases n with
  | zero => omega
  | succ m =>
      cases fuel with
      | zero => omega
      | succ f =>
          rw [pyStrNatAux]
          exact List.append_ne_nil_of_right_ne_nil _ (by simp)

/-- Parsing the digit run of a positive `n` from accumulator `acc` yields
`acc` shifted past the run plus `n`. -/
theorem pyIntAux_pyStrNatAux (fuel : Nat) : ∀ n acc : Nat, 0 < n → n ≤ fuel →
    pyIntAux (pyStrNatAux fuel n) acc =
      some (acc * 10 ^ (pyStrNatAux fuel n).length + n) := by
  induction fuel with
  | zero =>
      intro n acc hn hf
      omega
  | succ f ih =>
      intro n acc hn hf
      cases n with
      | zero => omega
      | succ m =>
          rw [pyStrNatAux]
          have h0 : pyStrNatAux f 0 = [] := by
            cases f <;> rfl
          by_cases hq : (m + 1) / 10 = 0
          · have hlt : m + 1 < 10 := by omega
            have hmod : (m + 1) % 10 = m + 1 := Nat.mod_eq_of_lt hlt
            rw [hq, h0, hmod]
            simp only [List.nil_append, List.length_cons, List.length_nil]
            rw [pyIntAux, charVal_digitChar (m + 1) hlt]
            simp [pyIntAux]
          · have hqlt : (m + 1) / 10 < m + 1 := Nat.div_lt_self (by omega) (by omega)
            have hqpos : 0 < (m + 1) / 10 := by omega
            have hqle : (m + 1) / 10 ≤ f := by omega
            rw [pyIntAux_append, ih ((m + 1) / 10) acc hqpos hqle]
            have hmlt : (m + 1) % 10 < 10 := Nat.mod_lt _ (by omega)
            simp only [Option.bind_some, pyIntAux, charVal_digitChar _ hmlt]
            rw [List.length_append, List.length_singleton]
            refine congrArg some ?_
            have hdm : (m + 1) / 10 * 10 + (m + 1) % 10 = m + 1 := by omega
            have hcalc : ∀ A q r : Nat, q * 10 + r = m + 1 →
                (A + q) * 10 + r = A * 10 + (m + 1) := by
              intro A q r h
              omega
            rw [pow_succ, ← mul_assoc]
            exact hcalc (acc * 10 ^ (pyStrNatAux f ((m + 1) / 10)).length) _ _ hdm

/-- Round trip: `int(str(n)) = n` for every non-negative int. -/
theorem pyIntNat_pyStrNat (n : Nat) : pyIntNat (pyStrNat n) = some n := by
  by_cases hn : n = 0
  · subst hn
    decide
  · have hpos : 0 < n := by omega
    rw [pyStrNat, if_neg hn, pyIntNat]
    have hne := pyStrNatAux_ne_nil n n hpos (le_refl n)
    cases hcs : pyStrNatAux n n with
    | nil => exact absurd hcs hne
    | cons c rest =>
        show pyIntAux (c :: rest) 0 = some n
        rw [← hcs, pyIntAux_pyStrNatAux n n 0 hpos (le_refl n)]
        simp

/-- An XML element as the codec sees it: tag, text content (`none` for
Python `None`), child elements.  Attributes are never used by this
codec. -/
inductive Xml where
  | elem : String → Option String → List Xml → Xml

/-- The element's tag. -/
def Xml.tag : Xml → String
  | .elem t _ _ => t

/-- The element's text (`el.text` in lxml). -/
def Xml.text : Xml → Option String
  | .elem _ tx _ => tx

/-- The element's direct children. -/
def Xml.children : Xml → List Xml
  | .elem _ _ cs => cs

/-- lxml `el.findall(tag)`: all direct children with the tag, in document
order. -/
def findall (tag : String) (x : Xml) : List Xml :=
  x.children.filter fun c => c.tag = tag

/-- objectify attribute access `el.Tag`: the first direct child with the
tag, `none` (AttributeError) when there is none. -/
def firstChild (x : Xml) (tag : String) : Option Xml :=
  x.children.find? fun c => c.tag = tag

/-- `el.Tag.text`: text of the first child with the tag; the outer
`Option` is the AttributeError of a missing child. -/
def childText (x : Xml) (tag : String) : Option (Option String) :=
  (firstChild x tag).map Xml.text

/-- Text normalisation performed by serialising and re-parsing
(`etree.tounicode` + `objectify.fromstring` in `generate_root`, or the
container round trip through `kdb.write_to` and a later open): an element
whose text was set to the empty string serialises as `<Tag/>` and parses
back with text `None`. -/
def nrmText : Option String → Option String
  | some s => if s = "" then none else some s
  | none => none

mutual

/-- Serialise-and-reparse on an element tree: normalise every text,
keep tags and structure. -/
def reparse : Xml → Xml
  | .elem t tx cs => .elem t (nrmText tx) (reparseList cs)
termination_by structural x => x

/-- Serialise-and-reparse on a child list. -/
def reparseList : List Xml → List Xml
  | [] => []
  | c :: rest => reparse c :: reparseList rest
termination_by structural l => l

end

/-- Tags survive `reparse`. -/
theorem reparse_tag (x : Xml) : (reparse x).tag = x.tag := by
  cases x
  rfl

/-- `reparse` of an element: definitional unfolding. -/
theorem reparse_elem (t : String) (tx : Option String) (cs : List Xml) :
    reparse (Xml.elem t tx cs) = Xml.elem t (nrmText tx) (reparseList cs) := by
  rfl

/-- `reparseList` is the elementwise map of `reparse`. -/
theorem reparseList_eq_map (cs : List Xml) : reparseList cs = cs.map reparse := by
  induction cs with
  | nil => rfl
  | cons c rest ih => rw [reparseList, ih, List.map_cons]

/-- The `AutoType` object: `enabled` and `dto` attribute texts and the
optional association `(Window, KeystrokeSequence)` texts. -/
structure ATData where
  enabled : Option String
  dto : Option String
  assoc : Option (Option String × Option String)
deriving DecidableEq, Repr

/-- The in-memory document tree built by `_init_root_group` and consumed
by `get_xml_element`: a `KeeGroup` (uuid, name, notes, icon id, mixed
ordered children) or a `KeeEntry` (uuid, icon id, derived name, ordered
`(key, value)` strings, autotype).  Constructed uuids are never empty
(`KeeGroup.__init__` / `KeeEntry.__init__` generate one when the argument
is falsy), so `uuid` is a plain string.  `page`/`size` are pagination
state, not serialised and not part of the tree. -/
inductive KTree where
  | grp : String → Option String → Option String → Nat → List KTree → KTree
  | ent : String → Nat → Option String →
      List (Option String × Option String) → ATData → KTree

mutual

/-- Decidable equality of document trees (manual: the automatic
derivation does not handle the nested `List KTree`). -/
def decEqKTree : (a b : KTree) → Decidable (a = b)
  | KTree.grp u1 n1 no1 i1 cs1, KTree.grp u2 n2 no2 i2 cs2 =>
      match String.decEq u1 u2 with
      | isFalse h => isFalse (by intro he; injection he; contradiction)
      | isTrue h1 =>
          match Option.instDecidableEq n1 n2 with
          | isFalse h => isFalse (by intro he; injection he; contradiction)
          | isTrue h2 =>
              match Option.instDecidableEq no1 no2 with
              | isFalse h => isFalse (by intro he; injection he; contradiction)
              | isTrue h3 =>
                  match Nat.decEq i1 i2 with
                  | isFalse h => isFalse (by intro he; injection he; contradiction)
                  | isTrue h4 =>
                      match decEqKTreeList cs1 cs2 with
                      | isFalse h => isFalse (by intro he; injection he; contradiction)
                      | isTrue h5 => isTrue (by rw [h1, h2, h3, h4, h5])
  | KTree.grp _ _ _ _ _, KTree.ent _ _ _ _ _ => isFalse (fun h => KTree.noConfusion h)
  | KTree.ent _ _ _ _ _, KTree.grp _ _ _ _ _ => isFalse (fun h => KTree.noConfusion h)
  | KTree.ent u1 i1 n1 ss1 a1, KTree.ent u2 i2 n2 ss2 a2 =>
      match String.decEq u1 u2 with
      | isFalse h => isFalse (by intro he; injection he; contradiction)
      | isTrue h1 =>
          match Nat.decEq i1 i2 with
          | isFalse h => isFalse (by intro he; injection he; contradiction)
          | isTrue h2 =>
              match Option.instDecidableEq n1 n2 with
              | isFalse h => isFalse (by intro he; injection he; contradiction)
              | isTrue h3 =>
                  match instDecidableEqList ss1 ss2 with
                  | isFalse h => isFalse (by intro he; injection he; contradiction)
                  | isTrue h4 =>
                      match instDecidableEqATData a1 a2 with
                      | isFalse h => isFalse (by intro he; injection he; contradiction)
                      | isTrue h5 => isTrue (by rw [h1, h2, h3, h4, h5])
termination_by structural a => a

/-- Decidable equality of lists of document trees. -/
def decEqKTreeList : (a b : List KTree) → Decidable (a = b)
  | [], [] => isTrue rfl
  | [], _ :: _ => isFalse (fun h => List.noConfusion h)
  | _ :: _, [] => isFalse (fun h => List.noConfusion h)
  | a :: as, b :: bs =>
      match decEqKTree a b with
      | isFalse h => isFalse (by intro he; injection he; contradiction)
      | isTrue h1 =>
          match decEqKTreeList as bs with
          | isFalse h => isFalse (by intro he; injection he; contradiction)
          | isTrue h2 => isTrue (by rw [h1, h2])
termination_by structural a => a

end

instance : DecidableEq KTree := decEqKTree

/-- `EntryString.get_xml_element`: `<String><Key/><Value/></String>`. -/
def encodeString (kv : Option String × Option String) : Xml :=
  .elem "String" none [.elem "Key" kv.1 [], .elem "Value" kv.2 []]

/-- The `Times` block emitted for every Group and Entry: all timestamps
are regenerated from the encode-time clock `now`
(`datetime.datetime.now().strftime(...)`), `Expires=False`,
`UsageCount=0`. -/
def encodeTimes (now : String) : Xml :=
  .elem "Times" none
    [.elem "CreationTime" (some now) [],
     .elem "LastModificationTime" (some now) [],
     .elem "LastAccessTime" (some now) [],
     .elem "ExpiryTime" (some now) [],
     .elem "Expires" (some "False") [],
     .elem "UsageCount" (some "0") [],
     .elem "LocationChanged" (some now) []]

/-- `AutoType.get_xml_element`: Enabled and DataTransferObfuscation
always, the Association block (Window, KeystrokeSequence) only when the
association is present. -/
def encodeAutoType (a : ATData) : Xml :=
  .elem "AutoType" none
    ([.elem "Enabled" a.enabled [], .elem "DataTransferObfuscation" a.dto []] ++
      (match a.assoc with
       | some (w, k) =>
           [.elem "Association" none
             [.elem "Window" w [], .elem "KeystrokeSequence" k []]]
       | none => []))

mutual

/-- `KeeGroup.get_xml_element` / `KeeEntry.get_xml_element`, at encode
time `now`, with every `SubElement` in source order.  A Group always
encodes `Notes` as the empty string regardless of the in-memory value;
an Entry encodes no name element (the name is derived from its Title
string on decode). -/
def encodeNode (now : String) : KTree → Xml
  | KTree.grp uuid name _notes iconId children =>
      .elem "Group" none
        ([.elem "UUID" (some uuid) [],
          .elem "Name" name [],
          .elem "Notes" (some "") [],
          .elem "IconID" (some (pyStrNat iconId)) [],
          encodeTimes now,
          .elem "IsExpanded" (some "True") [],
          .elem "DefaultAutoTypeSequence" (some "") [],
          .elem "EnableAutoType" (some "null") [],
          .elem "EnableSearching" (some "null") [],
          .elem "LastTopVisibleEntry" (some "AAAAAAAAAAAAAAAAAAAAAA==") []] ++
         encodeList now children)
  | KTree.ent uuid iconId _name strings auto =>
      .elem "Entry" none
        ([.elem "UUID" (some uuid) [],
          .elem "IconID" (some (pyStrNat iconId)) [],
          .elem "ForegroundColor" none [],
          .elem "BackgroundColor" none [],
          .elem "OverrideURL" none [],
          .elem "Tags" none [],
          encodeTimes now] ++
         strings.map encodeString ++
         [encodeAutoType auto, .elem "History" none []])
termination_by structural t => t

/-- The `for item in self.items: group.append(item.get_xml_element())`
loop: children in order. -/
def encodeList (now : String) : List KTree → List Xml
  | [] => []
  | c :: rest => encodeNode now c :: encodeList now rest
termination_by structural l => l

end

/-- Python falsiness of the `uuid` constructor argument (`if not uuid`):
`None` and the empty string are falsy. -/
def pyFalsy : Option String → Bool
  | none => true
  | some s => s = ""

/-- The uuid branch of `KeeGroup.__init__` / `KeeEntry.__init__`: a falsy
argument triggers `base64.b64encode(uuid_generator.uuid4().bytes)` — a
fresh random uuid, modelled by the supply `gen` at counter `n`; otherwise
the given text is kept. -/
def mkUuid (gen : Nat → String) (n : Nat) (uuidText : Option String) :
    String × Nat :=
  if pyFalsy uuidText then (gen n, n + 1) else (uuidText.getD "", n)

/-- The `for string in item.findall('String')` loop of the Entry decode:
each String element contributes `(string.Key.text, string.Value.text)`;
a missing Key/Value child raises (`none`). -/
def decodeStrings (x : Xml) : Option (List (Option String × Option String)) :=
  (findall "String" x).mapM fun s => do
    let k ← childText s "Key"
    let v ← childText s "Value"
    pure (k, v)

/-- The derived entry name left by the append loop: `KeeEntry.__init__`
sets `name = ""` and every appended Title string overwrites it with its
value. -/
def derivedName (strings : List (Option String × Option String)) :
    Option String :=
  strings.foldl (fun acc kv => if kv.1 = some "Title" then kv.2 else acc)
    (some "")

/-- The AutoType part of the Entry decode: `hasattr(item.AutoType,
'Association')` selects the association variant; all reads go through
the first matching child and raise (`none`) when it is missing. -/
def decodeAutoType (x : Xml) : Option ATData := do
  let atEl ← firstChild x "AutoType"
  let enabled ← childText atEl "Enabled"
  let dto ← childText atEl "DataTransferObfuscation"
  match firstChild atEl "Association" with
  | none => pure ⟨enabled, dto, none⟩
  | some asoc => do
      let w ← childText asoc "Window"
      let k ← childText asoc "KeystrokeSequence"
      pure ⟨enabled, dto, some (w, k)⟩

/-- The Entry branch of `inner_init`: build the AutoType, construct
`KeeEntry(..., icond_id=item.IconID.text, uuid=item.UUID.text, ...)`
(whose constructor runs `int(icond_id)` and the uuid branch), then append
one `EntryString` per String element (deriving the name). -/
def decodeEntry (gen : Nat → String) (x : Xml) (n : Nat) :
    Option (KTree × Nat) := do
  let auto ← decodeAutoType x
  let iconText ← childText x "IconID"
  let uuidText ← childText x "UUID"
  let icon ← pyIntOpt iconText
  let (uuid, n1) := mkUuid gen n uuidText
  let strings ← decodeStrings x
  pure (KTree.ent uuid icon (derivedName strings) strings auto, n1)

/-- The `findall('Entry')` pass of `inner_init`'s child loop: scan the
direct children in document order, decoding those tagged `Entry`. -/
def decodeEntryChildren (gen : Nat → String) :
    List Xml → Nat → Option (List KTree × Nat)
  | [], n => some ([], n)
  | c :: rest, n =>
      if c.tag = "Entry" then do
        let (t, n1) ← decodeEntry gen c n
        let (ts, n2) ← decodeEntryChildren gen rest n1
        pure (t :: ts, n2)
      else decodeEntryChildren gen rest n

mutual

/-- The Group decode of `_init_root_group` (both the root construction
and the Group branch of `inner_init`): read Name/Notes/IconID/UUID texts,
construct the `KeeGroup` (running `int` and the uuid branch), then
process the children as `findall('Group') + findall('Entry')` — all
Group children first, then all Entry children, each pass scanning the
direct children in document order. -/
def decodeGroup (gen : Nat → String) (x : Xml) (n : Nat) :
    Option (KTree × Nat) :=
  match x with
  | Xml.elem t tx cs => do
      let el := Xml.elem t tx cs
      let nameT ← childText el "Name"
      let notesT ← childText el "Notes"
      let iconT ← childText el "IconID"
      let uuidT ← childText el "UUID"
      let icon ← pyIntOpt iconT
      let (uuid, n1) := mkUuid gen n uuidT
      let (gs, n2) ← decodeGroupChildren gen cs n1
      let (es, n3) ← decodeEntryChildren gen cs n2
      pure (KTree.grp uuid nameT notesT icon (gs ++ es), n3)
termination_by structural x

/-- The `findall('Group')` pass of `inner_init`'s child loop: scan the
direct children in document order, recursing into those tagged `Group`. -/
def decodeGroupChildren (gen : Nat → String) :
    (cs : List Xml) → Nat → Option (List KTree × Nat)
  | [], n => some ([], n)
  | c :: rest, n =>
      if c.tag = "Group" then do
        let (t, n1) ← decodeGroup gen c n
        let (ts, n2) ← decodeGroupChildren gen rest n1
        pure (t :: ts, n2)
      else decodeGroupChildren gen rest n
termination_by structural cs => cs

end

/-- A text that survives serialise-and-reparse unchanged: anything except
the empty string (which parses back as `None`). -/
def textOk (t : Option String) : Bool := t != some ""

/-- Both texts of one entry string survive the round trip. -/
def strOk (kv : Option String × Option String) : Bool :=
  textOk kv.1 && textOk kv.2

/-- All AutoType texts survive the round trip. -/
def atOk (a : ATData) : Bool :=
  textOk a.enabled && textOk a.dto &&
    (match a.assoc with
     | none => true
     | some (w, k) => textOk w && textOk k)

/-- Entry test used to state the reordering. -/
def isEntB : KTree → Bool
  | KTree.ent _ _ _ _ _ => true
  | KTree.grp _ _ _ _ _ => false

mutual

/-- The in-memory invariants of a decoded (or constructor-built) tree:
uuids are non-empty (guaranteed by the constructors), no text field holds
the empty string (guaranteed for trees parsed from XML, where empty
elements read as `None`), and every entry's `name` is the value derived
from its Title strings (invariant (3) of the spec). -/
def wfTree : KTree → Bool
  | KTree.grp uuid name _notes _iconId children =>
      (uuid != "") && textOk name && wfList children
  | KTree.ent uuid _iconId name strings auto =>
      (uuid != "") && (name == derivedName strings) &&
        strings.all strOk && atOk auto
termination_by structural t => t

/-- `wfTree` on every tree of a list. -/
def wfList : List KTree → Bool
  | [] => true
  | c :: rest => wfTree c && wfList rest
termination_by structural l => l

end

mutual

/-- What one decode/encode round trip actually produces from a
well-formed tree: every group's notes become `None` (encoded as empty,
reparsed as `None`) and every group's children are reordered with all
subgroup children first and all entry children after (the
`findall('Group') + findall('Entry')` iteration); entries and everything
else are unchanged. -/
def roundTripView : KTree → KTree
  | KTree.grp uuid name _notes iconId children =>
      KTree.grp uuid name none iconId
        (rtGroups children ++ children.filter isEntB)
  | KTree.ent uuid iconId name strings auto =>
      KTree.ent uuid iconId name strings auto
termination_by structural t => t

/-- The group pass of the reordering: subgroup children, recursively
round-tripped, in order. -/
def rtGroups : List KTree → List KTree
  | [] => []
  | c :: rest =>
      match c with
      | KTree.grp u nm no ic cs =>
          roundTripView (KTree.grp u nm no ic cs) :: rtGroups rest
      | KTree.ent _ _ _ _ _ => rtGroups rest
termination_by structural l => l

end

mutual

/-- The transform the claim asserts: identical identifiers, names, notes
and hierarchy, with group notes as the only permitted tree-level
difference (timestamps are not part of the tree — decode discards
them). -/
def eraseNotes : KTree → KTree
  | KTree.grp uuid name _notes iconId children =>
      KTree.grp uuid name none iconId (eraseNotesList children)
  | KTree.ent uuid iconId name strings auto =>
      KTree.ent uuid iconId name strings auto
termination_by structural t => t

/-- `eraseNotes` on every child, order preserved. -/
def eraseNotesList : List KTree → List KTree
  | [] => []
  | c :: rest => eraseNotes c :: eraseNotesList rest
termination_by structural l => l

end

/-- A round-trip-safe text is unchanged by the serialise/parse
normalisation. -/
theorem nrmText_textOk (t : Option String) (h : textOk t = true) :
    nrmText t = t := by
  cases t with
  | none => rfl
  | some s =>
      simp only [textOk, bne_iff_ne, ne_eq, Option.some_inj] at h
      simp [nrmText, h]

/-- `str()` of a non-negative int is never the empty string. -/
theorem pyStrNat_ne_empty (n : Nat) : pyStrNat n ≠ "" := by
  by_cases hn : n = 0
  · subst hn
    decide
  · rw [pyStrNat, if_neg hn]
    intro h
    have hdata : pyStrNatAux n n = [] := congrArg String.data h
    exact pyStrNatAux_ne_nil n n (by omega) (le_refl n) hdata

/-- Hence the IconID text survives reparse. -/
theorem nrmText_pyStrNat (n : Nat) :
    nrmText (some (pyStrNat n)) = some (pyStrNat n) := by
  apply nrmText_textOk
  simp [textOk, pyStrNat_ne_empty n]

/-- `None` texts are unchanged by the normalisation. -/
theorem nrmText_none : nrmText none = none := rfl

/-- Reparse preserves a round-trip-safe AutoType element. -/
theorem reparse_encodeAutoType (a : ATData) (h : atOk a = true) :
    reparse (encodeAutoType a) = encodeAutoType a := by
  obtain ⟨en, dt, asc⟩ := a
  simp only [atOk, Bool.and_eq_true] at h
  cases asc with
  | none =>
      simp only [encodeAutoType, reparse_elem, reparseList_eq_map]
      simp [reparse_elem, reparseList_eq_map, nrmText_none,
        nrmText_textOk en h.1.1, nrmText_textOk dt h.1.2]
  | some wk =>
      obtain ⟨w, k⟩ := wk
      simp only [Bool.and_eq_true] at h
      simp only [encodeAutoType, reparse_elem, reparseList_eq_map]
      simp [reparse_elem, reparseList_eq_map, nrmText_none,
        nrmText_textOk en h.1.1, nrmText_textOk dt h.1.2,
        nrmText_textOk w h.2.1, nrmText_textOk k h.2.2]

/-- Reparse of an encoded String element, with the texts normalised. -/
theorem reparse_encodeString (kv : Option String × Option String) :
    reparse (encodeString kv) =
      Xml.elem "String" none
        [Xml.elem "Key" (nrmText kv.1) [], Xml.elem "Value" (nrmText kv.2) []] := by
  simp [encodeString, reparse_elem, reparseList_eq_map, nrmText_none]

/-- Reparse preserves a round-trip-safe String element. -/
theorem reparse_encodeString_strOk (kv : Option String × Option String)
    (h : strOk kv = true) : reparse (encodeString kv) = encodeString kv := by
  simp only [strOk, Bool.and_eq_true] at h
  rw [reparse_encodeString, nrmText_textOk kv.1 h.1, nrmText_textOk kv.2 h.2]
  rfl

/-- `find?` misses every encoded String element when looking for another
tag. -/
theorem find?_map_encodeString_ne (tag : String) (htag : tag ≠ "String")
    (strings : List (Option String × Option String)) :
    (strings.map encodeString).find? (fun c => c.tag = tag) = none := by
  rw [List.find?_eq_none]
  intro x hx
  obtain ⟨kv, _, rfl⟩ := List.mem_map.mp hx
  simp [encodeString, Xml.tag]
  exact fun h => htag h.symm

/-- Every encoded String element survives the `findall('String')`
filter. -/
theorem filter_map_encodeString (strings : List (Option String × Option String)) :
    (strings.map encodeString).filter (fun c => c.tag = "String") =
      strings.map encodeString := by
  rw [List.filter_eq_self]
  intro x hx
  obtain ⟨kv, _, rfl⟩ := List.mem_map.mp hx
  simp [encodeString, Xml.tag]

/-- Decoding the String elements of a round-trip gives back the original
key/value pairs. -/
theorem decodeStrings_map_encodeString
    (strings : List (Option String × Option String)) :
    ((strings.map encodeString).mapM fun s => do
      let k ← childText s "Key"
      let v ← childText s "Value"
      pure (k, v)) = some strings := by
  induction strings with
  | nil => rfl
  | cons kv rest ih =>
      rw [List.map_cons, List.mapM_cons]
      have hkv : (do
          let k ← childText (encodeString kv) "Key"
          let v ← childText (encodeString kv) "Value"
          pure (k, v) : Option (Option String × Option String)) = some kv := by
        simp [childText, firstChild, encodeString, Xml.children, Xml.tag,
          List.find?, Xml.text]
      rw [hkv, ih]
      rfl

/-- Accessor equation: tag of a built element. -/
theorem xmlTag_elem (t : String) (tx : Option String) (cs : List Xml) :
    (Xml.elem t tx cs).tag = t := rfl

/-- Accessor equation: text of a built element. -/
theorem xmlText_elem (t : String) (tx : Option String) (cs : List Xml) :
    (Xml.elem t tx cs).text = tx := rfl

/-- Accessor equation: children of a built element. -/
theorem xmlChildren_elem (t : String) (tx : Option String) (cs : List Xml) :
    (Xml.elem t tx cs).children = cs := rfl

/-- The encoded AutoType element always carries the `AutoType` tag. -/
theorem encodeAutoType_tag (a : ATData) : (encodeAutoType a).tag = "AutoType" := rfl

/-- The reparsed Times block keeps the `Times` tag. -/
theorem reparse_encodeTimes_tag (now : String) :
    (reparse (encodeTimes now)).tag = "Times" := rfl

/-- Decoding an AutoType element that was encoded from `auto` (reached as
the first `AutoType` child) recovers `auto`. -/
theorem decodeAutoType_of_firstChild (x : Xml) (auto : ATData)
    (h : firstChild x "AutoType" = some (encodeAutoType auto)) :
    decodeAutoType x = some auto := by
  obtain ⟨en, dt, asc⟩ := auto
  cases asc with
  | none =>
      simp only [decodeAutoType, h, Option.bind_some]
      simp [encodeAutoType, childText, firstChild, xmlChildren_elem,
        List.find?, xmlTag_elem, xmlText_elem]
  | some wk =>
      obtain ⟨w, k⟩ := wk
      simp only [decodeAutoType, h, Option.bind_some]
      simp [encodeAutoType, childText, firstChild, xmlChildren_elem,
        List.find?, xmlTag_elem, xmlText_elem]

/-- The reparse of an encoded Entry element, with the well-formedness
facts applied: uuid and icon texts survive, String children and the
AutoType block are unchanged. -/
theorem reparse_encode_ent (now : String)
    (uuid : String) (iconId : Nat) (name : Option String)
    (strings : List (Option String × Option String)) (auto : ATData)
    (huuid : uuid ≠ "") (hstr : strings.all strOk = true)
    (hat : atOk auto = true) :
    reparse (encodeNode now (KTree.ent uuid iconId name strings auto)) =
      Xml.elem "Entry" none
        ([Xml.elem "UUID" (some uuid) [],
          Xml.elem "IconID" (some (pyStrNat iconId)) [],
          Xml.elem "ForegroundColor" none [],
          Xml.elem "BackgroundColor" none [],
          Xml.elem "OverrideURL" none [],
          Xml.elem "Tags" none [],
          reparse (encodeTimes now)] ++
         strings.map encodeString ++
         [encodeAutoType auto, Xml.elem "History" none []]) := by
  have hu : nrmText (some uuid) = some uuid := by
    simp [nrmText, huuid]
  have hmap : (strings.map encodeString).map reparse = strings.map encodeString := by
    rw [List.map_map]
    refine List.map_congr_left ?_
    intro kv hkv
    exact reparse_encodeString_strOk kv (List.all_eq_true.mp hstr kv hkv)
  rw [encodeNode, reparse_elem, reparseList_eq_map]
  simp only [List.map_append, List.map_cons, List.map_nil, reparse_elem,
    reparseList_eq_map, nrmText_none, nrmText_pyStrNat, hu, hmap,
    reparse_encodeAutoType auto hat]

/-- Decoding an Entry element that was encoded from a well-formed entry
gives back exactly that entry, with the uuid supply untouched. -/
theorem decodeEntry_round_trip (gen : Nat → String) (now : String)
    (uuid : String) (iconId : Nat) (name : Option String)
    (strings : List (Option String × Option String)) (auto : ATData)
    (hwf : wfTree (KTree.ent uuid iconId name strings auto) = true)
    (n : Nat) :
    decodeEntry gen
        (reparse (encodeNode now (KTree.ent uuid iconId name strings auto))) n =
      some (KTree.ent uuid iconId name strings auto, n) := by
  simp only [wfTree, Bool.and_eq_true, bne_iff_ne, ne_eq, beq_iff_eq] at hwf
  obtain ⟨⟨⟨huuid, hname⟩, hstr⟩, hat⟩ := hwf
  rw [reparse_encode_ent now uuid iconId name strings auto huuid hstr hat]
  have hfa : firstChild
      (Xml.elem "Entry" none
        ([Xml.elem "UUID" (some uuid) [],
          Xml.elem "IconID" (some (pyStrNat iconId)) [],
          Xml.elem "ForegroundColor" none [],
          Xml.elem "BackgroundColor" none [],
          Xml.elem "OverrideURL" none [],
          Xml.elem "Tags" none [],
          reparse (encodeTimes now)] ++
         strings.map encodeString ++
         [encodeAutoType auto, Xml.elem "History" none []])) "AutoType" =
      some (encodeAutoType auto) := by
    simp [firstChild, xmlChildren_elem, List.find?_append, List.find?,
      xmlTag_elem, reparse_encodeTimes_tag, encodeAutoType_tag,
      find?_map_encodeString_ne "AutoType" (by decide) strings]
  have ha := decodeAutoType_of_firstChild _ auto hfa
  have hfilter : findall "String"
      (Xml.elem "Entry" none
        ([Xml.elem "UUID" (some uuid) [],
          Xml.elem "IconID" (some (pyStrNat iconId)) [],
          Xml.elem "ForegroundColor" none [],
          Xml.elem "BackgroundColor" none [],
          Xml.elem "OverrideURL" none [],
          Xml.elem "Tags" none [],
          reparse (encodeTimes now)] ++
         strings.map encodeString ++
         [encodeAutoType auto, Xml.elem "History" none []])) =
      strings.map encodeString := by
    simp [findall, xmlChildren_elem, List.filter_append, List.filter,
      xmlTag_elem, reparse_encodeTimes_tag, encodeAutoType_tag,
      filter_map_encodeString]
  have hs : decodeStrings
      (Xml.elem "Entry" none
        ([Xml.elem "UUID" (some uuid) [],
          Xml.elem "IconID" (some (pyStrNat iconId)) [],
          Xml.elem "ForegroundColor" none [],
          Xml.elem "BackgroundColor" none [],
          Xml.elem "OverrideURL" none [],
          Xml.elem "Tags" none [],
          reparse (encodeTimes now)] ++
         strings.map encodeString ++
         [encodeAutoType auto, Xml.elem "History" none []])) = some strings := by
    rw [decodeStrings, hfilter]
    exact decodeStrings_map_encodeString strings
  have hic : childText
      (Xml.elem "Entry" none
        ([Xml.elem "UUID" (some uuid) [],
          Xml.elem "IconID" (some (pyStrNat iconId)) [],
          Xml.elem "ForegroundColor" none [],
          Xml.elem "BackgroundColor" none [],
          Xml.elem "OverrideURL" none [],
          Xml.elem "Tags" none [],
          reparse (encodeTimes now)] ++
         strings.map encodeString ++
         [encodeAutoType auto, Xml.elem "History" none []])) "IconID" =
      some (some (pyStrNat iconId)) := by
    simp [childText, firstChild, xmlChildren_elem, List.find?_append,
      List.find?, xmlTag_elem, xmlText_elem]
  have huu : childText
      (Xml.elem "Entry" none
        ([Xml.elem "UUID" (some uuid) [],
          Xml.elem "IconID" (some (pyStrNat iconId)) [],
          Xml.elem "ForegroundColor" none [],
          Xml.elem "BackgroundColor" none [],
          Xml.elem "OverrideURL" none [],
          Xml.elem "Tags" none [],
          reparse (encodeTimes now)] ++
         strings.map encodeString ++
         [encodeAutoType auto, Xml.elem "History" none []])) "UUID" =
      some (some uuid) := by
    simp [childText, firstChild, xmlChildren_elem, List.find?_append,
      List.find?, xmlTag_elem, xmlText_elem]
  have hpy : pyIntOpt (some (pyStrNat iconId)) = some iconId := by
    simp [pyIntOpt, pyIntNat_pyStrNat]
  have hmk : mkUuid gen n (some uuid) = (uuid, n) := by
    simp [mkUuid, pyFalsy, huuid]
  simp only [List.cons_append, List.nil_append] at ha hs hic huu
  simp [decodeEntry, ha, hs, hic, huu, hpy, hmk, hname]

/-- A reparsed encoded entry keeps the `Entry` tag. -/
theorem reparse_encodeNode_ent_tag (now : String) (u : String) (ic : Nat)
    (nm : Option String) (ss : List (Option String × Option String))
    (a : ATData) :
    (reparse (encodeNode now (KTree.ent u ic nm ss a))).tag = "Entry" := rfl

/-- A reparsed encoded group keeps the `Group` tag. -/
theorem reparse_encodeNode_grp_tag (now : String) (u : String)
    (nm no : Option String) (ic : Nat) (cs : List KTree) :
    (reparse (encodeNode now (KTree.grp u nm no ic cs))).tag = "Group" := rfl

/-- `encodeList` is the elementwise map of `encodeNode`. -/
theorem encodeList_eq_map (now : String) (cs : List KTree) :
    encodeList now cs = cs.map (encodeNode now) := by
  induction cs with
  | nil => rfl
  | cons c rest ih => rw [encodeList, ih, List.map_cons]

/-- The `findall('Entry')` pass over the reparsed encoded children of a
well-formed list decodes exactly the entry children, in order, leaving
the uuid supply untouched. -/
theorem decodeEntryChildren_round_trip (gen : Nat → String) (now : String)
    (cs : List KTree) (hwf : wfList cs = true) : ∀ n : Nat,
    decodeEntryChildren gen ((encodeList now cs).map reparse) n =
      some (cs.filter isEntB, n) := by
  induction cs with
  | nil => intro n; rfl
  | cons c rest ih =>
      intro n
      rw [wfList, Bool.and_eq_true] at hwf
      rw [encodeList, List.map_cons]
      cases c with
      | grp u nm no ic gcs =>
          rw [decodeEntryChildren]
          rw [if_neg (by rw [reparse_encodeNode_grp_tag]; decide)]
          rw [ih hwf.2 n]
          simp [List.filter_cons, isEntB]
      | ent u ic nm ss a =>
          rw [decodeEntryChildren]
          rw [if_pos (by rw [reparse_encodeNode_ent_tag])]
          rw [decodeEntry_round_trip gen now u ic nm ss a hwf.1 n]
          simp [ih hwf.2, List.filter_cons, isEntB]

/-- The reparse of an encoded Group element, with the well-formedness
facts applied: uuid, name and icon texts survive, the Notes and
DefaultAutoTypeSequence texts (encoded as the empty string) become
`None`, the children are reparsed in place. -/
theorem reparse_encode_grp (now : String) (uuid : String)
    (name notes : Option String) (iconId : Nat) (children : List KTree)
    (huuid : uuid ≠ "") (hname : textOk name = true) :
    reparse (encodeNode now (KTree.grp uuid name notes iconId children)) =
      Xml.elem "Group" none
        ([Xml.elem "UUID" (some uuid) [],
          Xml.elem "Name" name [],
          Xml.elem "Notes" none [],
          Xml.elem "IconID" (some (pyStrNat iconId)) [],
          reparse (encodeTimes now),
          Xml.elem "IsExpanded" (some "True") [],
          Xml.elem "DefaultAutoTypeSequence" none [],
          Xml.elem "EnableAutoType" (some "null") [],
          Xml.elem "EnableSearching" (some "null") [],
          Xml.elem "LastTopVisibleEntry" (some "AAAAAAAAAAAAAAAAAAAAAA==") []] ++
         (encodeList now children).map reparse) := by
  have hu : nrmText (some uuid) = some uuid := by
    simp [nrmText, huuid]
  have hn : nrmText name = name := nrmText_textOk name hname
  rw [encodeNode, reparse_elem, reparseList_eq_map]
  simp only [List.map_append, List.map_cons, List.map_nil, reparse_elem,
    reparseList_eq_map, nrmText_none, nrmText_pyStrNat, hu, hn]
  simp [nrmText]

/-- Scanning step: a child with another tag does not affect an
objectify attribute lookup. -/
theorem childText_cons_ne (T : String) (TX : Option String) (c : Xml)
    (rest : List Xml) (tag : String) (h : c.tag ≠ tag) :
    childText (Xml.elem T TX (c :: rest)) tag =
      childText (Xml.elem T TX rest) tag := by
  simp [childText, firstChild, xmlChildren_elem, List.find?, h]

/-- Scanning step: the first child with the tag supplies the text. -/
theorem childText_cons_eq (T : String) (TX : Option String) (c : Xml)
    (rest : List Xml) (tag : String) (h : c.tag = tag) :
    childText (Xml.elem T TX (c :: rest)) tag = some c.text := by
  simp [childText, firstChild, xmlChildren_elem, List.find?, h]

/-- Scanning step of the `findall('Group')` pass: other tags are
skipped. -/
theorem decodeGroupChildren_cons_ne (gen : Nat → String) (c : Xml)
    (rest : List Xml) (n : Nat) (h : c.tag ≠ "Group") :
    decodeGroupChildren gen (c :: rest) n = decodeGroupChildren gen rest n := by
  rw [decodeGroupChildren, if_neg h]

/-- Scanning step of the `findall('Entry')` pass: other tags are
skipped. -/
theorem decodeEntryChildren_cons_ne (gen : Nat → String) (c : Xml)
    (rest : List Xml) (n : Nat) (h : c.tag ≠ "Entry") :
    decodeEntryChildren gen (c :: rest) n = decodeEntryChildren gen rest n := by
  rw [decodeEntryChildren, if_neg h]

mutual

/-- Decoding a Group element that was encoded from a well-formed group
yields the group with its notes dropped and its children reordered
groups-first (the `roundTripView`), leaving the uuid supply untouched. -/
theorem decodeGroup_round_trip (gen : Nat → String) (now : String) :
    (t : KTree) → isEntB t = false → wfTree t = true → ∀ n : Nat,
      decodeGroup gen (reparse (encodeNode now t)) n =
        some (roundTripView t, n)
  | KTree.ent _ _ _ _ _ => by
      intro h _ _
      simp [isEntB] at h
  | KTree.grp uuid name notes iconId children => by
      intro _ hwf n
      simp only [wfTree, Bool.and_eq_true, bne_iff_ne, ne_eq] at hwf
      obtain ⟨⟨huuid, hname⟩, hkids⟩ := hwf
      rw [reparse_encode_grp now uuid name notes iconId children huuid hname]
      rw [List.cons_append, List.cons_append, List.cons_append,
        List.cons_append, List.cons_append, List.cons_append,
        List.cons_append, List.cons_append, List.cons_append,
        List.cons_append, List.nil_append]
      have hna : childText (Xml.elem "Group" none
          (Xml.elem "UUID" (some uuid) [] :: Xml.elem "Name" name [] ::
           Xml.elem "Notes" none [] ::
           Xml.elem "IconID" (some (pyStrNat iconId)) [] ::
           reparse (encodeTimes now) :: Xml.elem "IsExpanded" (some "True") [] ::
           Xml.elem "DefaultAutoTypeSequence" none [] ::
           Xml.elem "EnableAutoType" (some "null") [] ::
           Xml.elem "EnableSearching" (some "null") [] ::
           Xml.elem "LastTopVisibleEntry" (some "AAAAAAAAAAAAAAAAAAAAAA==") [] ::
           (encodeList now children).map reparse)) "Name" = some name := by
        simp [childText, firstChild, xmlChildren_elem, List.find?, xmlTag_elem,
          xmlText_elem]
      have hno : childText (Xml.elem "Group" none
          (Xml.elem "UUID" (some uuid) [] :: Xml.elem "Name" name [] ::
           Xml.elem "Notes" none [] ::
           Xml.elem "IconID" (some (pyStrNat iconId)) [] ::
           reparse (encodeTimes now) :: Xml.elem "IsExpanded" (some "True") [] ::
           Xml.elem "DefaultAutoTypeSequence" none [] ::
           Xml.elem "EnableAutoType" (some "null") [] ::
           Xml.elem "EnableSearching" (some "null") [] ::
           Xml.elem "LastTopVisibleEntry" (some "AAAAAAAAAAAAAAAAAAAAAA==") [] ::
           (encodeList now children).map reparse)) "Notes" = some none := by
        simp [childText, firstChild, xmlChildren_elem, List.find?, xmlTag_elem,
          xmlText_elem]
      have hicn : childText (Xml.elem "Group" none
          (Xml.elem "UUID" (some uuid) [] :: Xml.elem "Name" name [] ::
           Xml.elem "Notes" none [] ::
           Xml.elem "IconID" (some (pyStrNat iconId)) [] ::
           reparse (encodeTimes now) :: Xml.elem "IsExpanded" (some "True") [] ::
           Xml.elem "DefaultAutoTypeSequence" none [] ::
           Xml.elem "EnableAutoType" (some "null") [] ::
           Xml.elem "EnableSearching" (some "null") [] ::
           Xml.elem "LastTopVisibleEntry" (some "AAAAAAAAAAAAAAAAAAAAAA==") [] ::
           (encodeList now children).map reparse)) "IconID" = some (some (pyStrNat iconId)) := by
        simp [childText, firstChild, xmlChildren_elem, List.find?, xmlTag_elem,
          xmlText_elem]
      have huun : childText (Xml.elem "Group" none
          (Xml.elem "UUID" (some uuid) [] :: Xml.elem "Name" name [] ::
           Xml.elem "Notes" none [] ::
           Xml.elem "IconID" (some (pyStrNat iconId)) [] ::
           reparse (encodeTimes now) :: Xml.elem "IsExpanded" (some "True") [] ::
           Xml.elem "DefaultAutoTypeSequence" none [] ::
           Xml.elem "EnableAutoType" (some "null") [] ::
           Xml.elem "EnableSearching" (some "null") [] ::
           Xml.elem "LastTopVisibleEntry" (some "AAAAAAAAAAAAAAAAAAAAAA==") [] ::
           (encodeList now children).map reparse)) "UUID" = some (some uuid) := by
        simp [childText, firstChild, xmlChildren_elem, List.find?, xmlTag_elem,
          xmlText_elem]
      have hskipg : ∀ m : Nat, decodeGroupChildren gen
          (Xml.elem "UUID" (some uuid) [] :: Xml.elem "Name" name [] ::
           Xml.elem "Notes" none [] ::
           Xml.elem "IconID" (some (pyStrNat iconId)) [] ::
           reparse (encodeTimes now) :: Xml.elem "IsExpanded" (some "True") [] ::
           Xml.elem "DefaultAutoTypeSequence" none [] ::
           Xml.elem "EnableAutoType" (some "null") [] ::
           Xml.elem "EnableSearching" (some "null") [] ::
           Xml.elem "LastTopVisibleEntry" (some "AAAAAAAAAAAAAAAAAAAAAA==") [] ::
           (encodeList now children).map reparse) m =
          some (rtGroups children, m) := by
        intro m
        rw [decodeGroupChildren_cons_ne gen _ _ m (by rw [xmlTag_elem]; decide),
          decodeGroupChildren_cons_ne gen _ _ m (by rw [xmlTag_elem]; decide),
          decodeGroupChildren_cons_ne gen _ _ m (by rw [xmlTag_elem]; decide),
          decodeGroupChildren_cons_ne gen _ _ m (by rw [xmlTag_elem]; decide),
          decodeGroupChildren_cons_ne gen _ _ m
            (by rw [reparse_encodeTimes_tag]; decide),
          decodeGroupChildren_cons_ne gen _ _ m (by rw [xmlTag_elem]; decide),
          decodeGroupChildren_cons_ne gen _ _ m (by rw [xmlTag_elem]; decide),
          decodeGroupChildren_cons_ne gen _ _ m (by rw [xmlTag_elem]; decide),
          decodeGroupChildren_cons_ne gen _ _ m (by rw [xmlTag_elem]; decide),
          decodeGroupChildren_cons_ne gen _ _ m (by rw [xmlTag_elem]; decide)]
        exact decodeGroupChildren_round_trip gen now children hkids m
      have hskipe : ∀ m : Nat, decodeEntryChildren gen
          (Xml.elem "UUID" (some uuid) [] :: Xml.elem "Name" name [] ::
           Xml.elem "Notes" none [] ::
           Xml.elem "IconID" (some (pyStrNat iconId)) [] ::
           reparse (encodeTimes now) :: Xml.elem "IsExpanded" (some "True") [] ::
           Xml.elem "DefaultAutoTypeSequence" none [] ::
           Xml.elem "EnableAutoType" (some "null") [] ::
           Xml.elem "EnableSearching" (some "null") [] ::
           Xml.elem "LastTopVisibleEntry" (some "AAAAAAAAAAAAAAAAAAAAAA==") [] ::
           (encodeList now children).map reparse) m =
          some (children.filter isEntB, m) := by
        intro m
        rw [decodeEntryChildren_cons_ne gen _ _ m (by rw [xmlTag_elem]; decide),
          decodeEntryChildren_cons_ne gen _ _ m (by rw [xmlTag_elem]; decide),
          decodeEntryChildren_cons_ne gen _ _ m (by rw [xmlTag_elem]; decide),
          decodeEntryChildren_cons_ne gen _ _ m (by rw [xmlTag_elem]; decide),
          decodeEntryChildren_cons_ne gen _ _ m
            (by rw [reparse_encodeTimes_tag]; decide),
          decodeEntryChildren_cons_ne gen _ _ m (by rw [xmlTag_elem]; decide),
          decodeEntryChildren_cons_ne gen _ _ m (by rw [xmlTag_elem]; decide),
          decodeEntryChildren_cons_ne gen _ _ m (by rw [xmlTag_elem]; decide),
          decodeEntryChildren_cons_ne gen _ _ m (by rw [xmlTag_elem]; decide),
          decodeEntryChildren_cons_ne gen _ _ m (by rw [xmlTag_elem]; decide)]
        exact decodeEntryChildren_round_trip gen now children hkids m
      have hpy : pyIntOpt (some (pyStrNat iconId)) = some iconId := by
        simp [pyIntOpt, pyIntNat_pyStrNat]
      have hmk : mkUuid gen n (some uuid) = (uuid, n) := by
        simp [mkUuid, pyFalsy, huuid]
      rw [decodeGroup]
      simp only [hna, hno, hicn, huun, hpy, hmk, Option.bind_some]
      simp only [hskipg, hskipe, Option.bind_some]
      simp [roundTripView, hpy, hmk]

/-- The `findall('Group')` pass over the reparsed encoded children of a
well-formed list decodes exactly the round-tripped group children, in
order, leaving the uuid supply untouched. -/
theorem decodeGroupChildren_round_trip (gen : Nat → String) (now : String) :
    (cs : List KTree) → wfList cs = true → ∀ n : Nat,
      decodeGroupChildren gen ((encodeList now cs).map reparse) n =
        some (rtGroups cs, n)
  | [] => by
      intro _ n
      rfl
  | c :: rest => by
      intro hwf n
      rw [wfList, Bool.and_eq_true] at hwf
      rw [encodeList, List.map_cons]
      cases c with
      | ent u ic nm ss a =>
          rw [decodeGroupChildren]
          rw [if_neg (by rw [reparse_encodeNode_ent_tag]; decide)]
          rw [decodeGroupChildren_round_trip gen now rest hwf.2 n]
          simp [rtGroups]
      | grp u nm no ic gcs =>
          rw [decodeGroupChildren]
          rw [if_pos (by rw [reparse_encodeNode_grp_tag])]
          rw [decodeGroup_round_trip gen now (KTree.grp u nm no ic gcs)
            (by simp [isEntB]) hwf.1 n]
          simp [decodeGroupChildren_round_trip gen now rest hwf.2, rtGroups]

end

/-- C2 (amended): decoding the XML produced by encoding a well-formed
tree yields a tree with identical identifiers, names, entry strings,
icon ids and autotype settings, where — besides the regenerated
bookkeeping timestamps (not part of the tree; decode discards them) and
the Group notes (always encoded empty, decoded as `None`) — one further
difference must be admitted: every group's children come back reordered,
all subgroup children first and all entry children after, because decode
iterates `findall('Group') + findall('Entry')`.  Formally the decode of
the encode is exactly `roundTripView`, and no fresh uuid is ever drawn. -/
theorem c2_round_trip (gen : Nat → String) (now : String) (uuid : String)
    (name notes : Option String) (iconId : Nat) (children : List KTree)
    (n : Nat)
    (hwf : wfTree (KTree.grp uuid name notes iconId children) = true) :
    decodeGroup gen
        (reparse (encodeNode now (KTree.grp uuid name notes iconId children)))
        n =
      some (roundTripView (KTree.grp uuid name notes iconId children), n) :=
  decodeGroup_round_trip gen now (KTree.grp uuid name notes iconId children)
    (by simp [isEntB]) hwf n

/-- The document of the C2 counterexample and witness: a root group
holding an entry followed by a subgroup (entry first!), with notes on
both groups. -/
def c2tree : KTree :=
  KTree.grp "g1" (some "root") (some "my notes") 37
    [KTree.ent "e1" 0 (some "site")
       [(some "Title", some "site"), (some "Password", some "pw")]
       ⟨some "True", some "0", none⟩,
     KTree.grp "g2" (some "sub") (some "sub notes") 37 []]

/-- C2 (counterexample): for `c2tree` the decode of the encode is not the
tree with only the permitted differences applied (`eraseNotes`, which
keeps the child order): the root's children come back as
`[subgroup, entry]` instead of `[entry, subgroup]`, so the claimed
"identical hierarchy up to timestamps and Group notes" is false; the
decode equals the groups-first `roundTripView` instead. -/
theorem c2_counterexample :
    decodeGroup (fun _ => "fresh")
        (reparse (encodeNode "2020-01-01T00:00:00Z" c2tree)) 0 ≠
      some (eraseNotes c2tree, 0) ∧
    decodeGroup (fun _ => "fresh")
        (reparse (encodeNode "2020-01-01T00:00:00Z" c2tree)) 0 =
      some (roundTripView c2tree, 0) := by
  constructor
  · decide
  · decide

/-- Witness for `c2_round_trip` at `c2tree`. -/
theorem c2_round_trip_witness :
    wfTree c2tree = true ∧
    decodeGroup (fun _ => "u")
        (reparse (encodeNode "2020-01-01T00:00:00Z" c2tree)) 0 =
      some (roundTripView c2tree, 0) :=
  ⟨by decide,
   c2_round_trip (fun _ => "u") "2020-01-01T00:00:00Z" "g1" (some "root")
     (some "my notes") 37
     [KTree.ent "e1" 0 (some "site")
        [(some "Title", some "site"), (some "Password", some "pw")]
        ⟨some "True", some "0", none⟩,
      KTree.grp "g2" (some "sub") (some "sub notes") 37 []] 0 (by decide)⟩

end KeePassBot
